import Mathlib

/-!
Verification of the lush prompt rendering core.

Byte strings are modelled as `List Nat` (each element one byte of the C
string, the terminating NUL excluded).  C functions that write through a
`char *` buffer are modelled by explicit buffer states carrying the buffer
capacity and the bytes written so far; C functions reading ambient process
state (`getuid`, `gethostname`, `getcwd`, `time`, ...) take an explicit
`SysEnv` record holding the values those calls would return.
-/

namespace Lush

/-- Result codes of `lle_result_t` (the spec's error taxonomy, section 7;
`error_handling.h` itself is outside the provided sources, but only the
constructors' identities matter). -/
inductive LleResult where
  | success
  | null_pointer
  | invalid_parameter
  | invalid_state
  | out_of_memory
  | resource_exhausted
  | system_call
  | not_initialized
  | feature_not_available
deriving DecidableEq, Repr

/-- Bytes of a C string value: everything before the first NUL byte. -/
def cstr (l : List Nat) : List Nat := l.takeWhile (fun b => b ≠ 0)

/-- Decimal digits of `n`, least significant first, as ASCII bytes.
The first argument is fuel; `n` itself is always enough fuel. -/
def decDigitsAux : Nat → Nat → List Nat
  | 0, _ => []
  | fuel + 1, n => if n = 0 then [] else (n % 10 + 48) :: decDigitsAux fuel (n / 10)

/-- ASCII decimal representation of a natural number (`printf "%u"`). -/
def decBytes (n : Nat) : List Nat :=
  if n = 0 then [48] else (decDigitsAux n n).reverse

/-- ASCII decimal representation of an integer (`printf "%d"`). -/
def intBytes (i : Int) : List Nat :=
  if i < 0 then 45 :: decBytes i.natAbs else decBytes i.natAbs

/-- Numeric value of an ASCII hex digit, if the byte is one. -/
def hexDigitVal (b : Nat) : Option Nat :=
  if 48 ≤ b ∧ b ≤ 57 then some (b - 48)
  else if 97 ≤ b ∧ b ≤ 102 then some (b - 87)
  else if 65 ≤ b ∧ b ≤ 70 then some (b - 55)
  else none

/-- C-locale `isspace`. -/
def isSpaceB (b : Nat) : Bool := b = 32 ∨ (9 ≤ b ∧ b ≤ 13)

/-- ASCII decimal digit. -/
def isDigitB (b : Nat) : Bool := 48 ≤ b ∧ b ≤ 57

/-- ASCII octal digit. -/
def isOctalB (b : Nat) : Bool := 48 ≤ b ∧ b ≤ 55

/-! ### Output buffer (`expand_buf_t`, prompt_expansion.c lines 30-65) -/

/-- State of an `expand_buf_t`: capacity `size` and the bytes written so far
(`pos` is always `out.length`; the cell `buf[out.length]` holds the
terminating NUL whenever `out.length < size`). -/
structure ExpandBuf where
  size : Nat
  out : List Nat
deriving DecidableEq, Repr

/-- Model of `buf_init`: empty contents (and `buf[0] = NUL` when `size > 0`). -/
def buf_init (size : Nat) : ExpandBuf := { size := size, out := [] }

/-- Model of `buf_append_char`: append one byte when `pos + 1 < size`,
otherwise drop it. -/
def buf_append_char (b : ExpandBuf) (c : Nat) : ExpandBuf :=
  if b.out.length + 1 < b.size then { b with out := b.out ++ [c] } else b

/-- Model of `buf_append_str`: copy bytes of `s` until its first NUL or the
buffer is full. -/
def buf_append_str (b : ExpandBuf) : List Nat → ExpandBuf
  | [] => b
  | c :: rest =>
      if c ≠ 0 ∧ b.out.length + 1 < b.size then
        buf_append_str { b with out := b.out ++ [c] } rest
      else b

/-- `buf_append_str` is the character-by-character copy of the C-string part
of its argument (once the buffer is full, `buf_append_char` is the
identity, so stopping and continuing with no-ops agree). -/
theorem buf_append_str_eq_foldl (s : List Nat) (b : ExpandBuf) :
    buf_append_str b s = (cstr s).foldl buf_append_char b := by
  induction s generalizing b with
  | nil => simp [buf_append_str, cstr]
  | cons c rest ih =>
      by_cases hc : c = 0
      · simp [buf_append_str, cstr, hc]
      · by_cases hroom : b.out.length + 1 < b.size
        · simp [buf_append_str, cstr, hc, hroom, ih, buf_append_char]
        · -- buffer full: the C loop stops; the fold keeps applying no-ops
          have hfull : ∀ (t : List Nat) (b' : ExpandBuf), b'.out.length + 1 ≥ b'.size →
              t.foldl buf_append_char b' = b' := by
            intro t
            induction t with
            | nil => intro b' _; rfl
            | cons x xs ihx =>
                intro b' hb'
                have : buf_append_char b' x = b' := by
                  simp [buf_append_char]; omega
                simp [List.foldl, this, ihx b' hb']
          simp only [buf_append_str, cstr, List.takeWhile_cons]
          simp only [decide_eq_true_eq]
          rw [if_neg (by tauto), if_pos (by simpa using hc)]
          simp [List.foldl]
          rw [show buf_append_char b c = b by simp [buf_append_char]; omega]
          exact (hfull _ b (by omega)).symm

/-! ### Ambient process state -/

/-- Values the process-level POSIX calls in prompt_expansion.c would return.
String fields hold the bytes of the corresponding C string (no interior
NUL). `euid` is recorded for specification purposes only; the code never
calls `geteuid`. -/
structure SysEnv where
  /-- `getpwuid(getuid())`: `none` models a NULL result, otherwise
  `(pw_name, pw_dir)`. -/
  passwd : Option (List Nat × List Nat)
  /-- `gethostname` result (`none` models failure, giving an empty name). -/
  hostname : Option (List Nat)
  /-- `getcwd` result (`none` models failure, giving an empty path). -/
  cwd : Option (List Nat)
  /-- `getuid()`. -/
  uid : Nat
  /-- `geteuid()` (unused by the code; present so claims about the effective
  uid can be stated). -/
  euid : Nat
  /-- `ttyname(STDIN_FILENO)`. -/
  tty : Option (List Nat)
  /-- `strftime "%a %b %d"`. -/
  dateAB : List Nat
  /-- `strftime "%H:%M:%S"`. -/
  timeHMS : List Nat
  /-- `strftime "%I:%M:%S"`. -/
  timeIMS : List Nat
  /-- `strftime "%I:%M %p"`. -/
  timeIMp : List Nat
  /-- `strftime "%H:%M"`. -/
  timeHM : List Nat
  /-- `strftime "%l:%M %p"`. -/
  timeLMp : List Nat
  /-- `strftime "%y-%m-%d"`. -/
  dateYMD : List Nat
  /-- `strftime` with a caller-supplied format. -/
  strftimeF : List Nat → List Nat
  /-- `LUSH_NAME`. -/
  shellName : List Nat
  /-- `LUSH_VERSION_MAJOR`. -/
  verMajor : Nat
  /-- `LUSH_VERSION_MINOR`. -/
  verMinor : Nat
  /-- `LUSH_VERSION_STRING`. -/
  verString : List Nat

/-- Model of `get_username` (prompt_expansion.c lines 71-74). -/
def get_username (E : SysEnv) : List Nat :=
  match E.passwd with
  | some (name, _) => name
  | none => []

/-- Model of `get_hostname_short`: host name truncated at the first dot. -/
def get_hostname_short (E : SysEnv) : List Nat :=
  match E.hostname with
  | some h => h.takeWhile (fun b => b ≠ 46)
  | none => []

/-- Model of `get_hostname_full`. -/
def get_hostname_full (E : SysEnv) : List Nat :=
  match E.hostname with
  | some h => h
  | none => []

/-- Model of `get_cwd_full`. -/
def get_cwd_full (E : SysEnv) : List Nat :=
  match E.cwd with
  | some c => c
  | none => []

/-- Boolean test that `pat` occurs at the head of `l`. -/
def isHeadOf : List Nat → List Nat → Bool
  | [], _ => true
  | _ :: _, [] => false
  | a :: as, b :: bs => a = b && isHeadOf as bs

/-- Model of `get_cwd_tilde` (lines 102-116): home directory replaced by `~`
when it is a path-component-aligned front of the cwd. -/
def get_cwd_tilde (E : SysEnv) : List Nat :=
  let cwd := get_cwd_full E
  match E.passwd with
  | some (_, dir) =>
      if isHeadOf dir cwd ∧
          ((cwd.drop dir.length).head? = some 47 ∨ cwd.drop dir.length = []) then
        126 :: cwd.drop dir.length
      else cwd
  | none => cwd

/-- Model of `get_cwd_basename` (lines 121-137). -/
def get_cwd_basename (E : SysEnv) : List Nat :=
  let t := get_cwd_tilde E
  if t = [126] then [126]
  else if t = [47] then [47]
  else if t.contains 47 then (t.reverse.takeWhile (fun b => b ≠ 47)).reverse
  else t

/-- Bytes of the literal string "/dev/". -/
def devSlash : List Nat := [47, 100, 101, 118, 47]

/-- Suffix of `l` starting at the first occurrence of `pat` (model of
`strstr`, returning the suffix rather than a pointer). -/
def strstrSuffix (pat : List Nat) : List Nat → Option (List Nat)
  | [] => if isHeadOf pat [] then some [] else none
  | c :: rest =>
      if isHeadOf pat (c :: rest) then some (c :: rest)
      else strstrSuffix pat rest

/-- Model of `get_tty_name` (lines 139-146). -/
def get_tty_name (E : SysEnv) : List Nat :=
  match E.tty with
  | none => [63]
  | some t =>
      match strstrSuffix devSlash t with
      | some s => s.drop 5
      | none => t

/-- Everything after the last slash, the whole string when it has no slash
(the `strrchr(s, '/') ? last + 1 : s` idiom). -/
def afterLastSlash (t : List Nat) : List Nat :=
  if t.contains 47 then (t.reverse.takeWhile (fun b => b ≠ 47)).reverse else t

/-! ### Color spec parsing (`emit_color`, prompt_expansion.c lines 156-222) -/

/-- One `%2x` conversion of `sscanf`: skip C-locale whitespace, then read one
or two hex digits.  A sign would make `sscanf` store an out-of-range value
into the `unsigned int` argument (undefined behaviour), so signs are not
modelled; the theorems about this branch exclude specs containing them. -/
def scan2x (l : List Nat) : Option (Nat × List Nat) :=
  match l.dropWhile isSpaceB with
  | [] => none
  | a :: rest =>
      match hexDigitVal a with
      | none => none
      | some d1 =>
          match rest with
          | [] => some (d1, [])
          | b :: rest2 =>
              match hexDigitVal b with
              | none => some (d1, rest)
              | some d2 => some (d1 * 16 + d2, rest2)

/-- The `sscanf(spec + 1, "%2x%2x%2x", ...) == 3` conversion. -/
def sscanf3hex (l : List Nat) : Option (Nat × Nat × Nat) :=
  match scan2x l with
  | none => none
  | some (r, l1) =>
      match scan2x l1 with
      | none => none
      | some (g, l2) =>
          match scan2x l2 with
          | none => none
          | some (b, _) => some (r, g, b)

/-- Model of `strtol(spec, &end, 10)`: skip whitespace, optional sign,
decimal digits; `none` when no digit was consumed (then C leaves
`end == spec`).  The value is unbounded where C clamps to `LONG_MAX` /
`LONG_MIN` on overflow; both the clamped and the unbounded value lie
outside `0..255` for the same inputs, so `emit_color` is unaffected. -/
def strtolDec (s : List Nat) : Option (Int × List Nat) :=
  let s1 := s.dropWhile isSpaceB
  let sign : Int := if s1.head? = some 45 then -1 else 1
  let s2 := if s1.head? = some 45 ∨ s1.head? = some 43 then s1.drop 1 else s1
  let ds := s2.takeWhile isDigitB
  if ds = [] then none
  else some (sign * (ds.foldl (fun a d => a * 10 + (d - 48)) 0 : Nat),
             s2.drop ds.length)

/-- The nine named colors of `emit_color` with their basic ANSI codes. -/
def namedColors : List (List Nat × Nat) :=
  [([98, 108, 97, 99, 107], 0),        -- black
   ([114, 101, 100], 1),               -- red
   ([103, 114, 101, 101, 110], 2),     -- green
   ([121, 101, 108, 108, 111, 119], 3), -- yellow
   ([98, 108, 117, 101], 4),           -- blue
   ([109, 97, 103, 101, 110, 116, 97], 5), -- magenta
   ([99, 121, 97, 110], 6),            -- cyan
   ([119, 104, 105, 116, 101], 7),     -- white
   ([100, 101, 102, 97, 117, 108, 116], 9)] -- default

/-- An SGR escape sequence `ESC [ body m`. -/
def sgr (body : List Nat) : List Nat := 27 :: 91 :: body ++ [109]

/-- Lookup in the named color table followed by emission (the final loop of
`emit_color`). -/
def namedLookup (spec : List Nat) (fg : Bool) : List Nat :=
  match namedColors.find? (fun p => p.1 = spec) with
  | some (_, code) => sgr (decBytes ((if fg then 30 else 40) + code))
  | none => []

/-- Model of `emit_color` (prompt_expansion.c lines 156-222).  `depth` is
`ctx->color_depth` (an `int`: 0 = none, 1 = basic, 2 = 256, 3 = truecolor);
`fg` selects `%F` (true) versus `%K` (false).  Returns the emitted bytes. -/
def emit_color (spec0 : List Nat) (depth : Int) (fg : Bool) : List Nat :=
  let spec := cstr spec0
  if depth = 0 then []
  else
    match (if spec.head? = some 35 ∧ spec.length = 7
           then sscanf3hex (spec.drop 1) else none) with
    | some (r, g, bl) =>
        if depth ≥ 3 then
          sgr (decBytes (if fg then 38 else 48) ++ [59, 50, 59] ++
               decBytes r ++ [59] ++ decBytes g ++ [59] ++ decBytes bl)
        else if depth ≥ 2 then
          let ri := if r > 47 then (r - 35) / 40 else 0
          let gi := if g > 47 then (g - 35) / 40 else 0
          let bi := if bl > 47 then (bl - 35) / 40 else 0
          sgr (decBytes (if fg then 38 else 48) ++ [59, 53, 59] ++
               decBytes (16 + 36 * ri + 6 * gi + bi))
        else []
    | none =>
        match strtolDec spec with
        | some (num, rest) =>
            if rest = [] ∧ 0 ≤ num ∧ num ≤ 255 then
              if depth ≥ 2 then
                sgr (decBytes (if fg then 38 else 48) ++ [59, 53, 59] ++
                     decBytes num.toNat)
              else
                sgr (decBytes ((if fg then 30 else 40) + num.toNat % 8))
            else namedLookup spec fg
        | none => namedLookup spec fg

/-! ### Pass-2 scanner (`expand_prompt_escapes`, prompt_expansion.c 228-647) -/

/-- Runtime context `lle_prompt_expand_ctx_t`.  The template engine
(`lle_template_evaluate`, an external collaborator) is abstracted as a
function from the format bytes to a result code and the C-string contents
it left in the intermediate buffer. -/
structure ExpandCtx where
  template : Option (List Nat → LleResult × List Nat)
  last_exit_status : Int
  job_count : Int
  history_number : Int
  command_number : Int
  color_depth : Int

/-- Bytes copied by the ANSI-passthrough loop `while (*p && *p < 0x40)`.
`*p` is a signed `char`, so bytes `0x80..0xFF` compare below `0x40` as
well. -/
def csiParamB (b : Nat) : Bool := b ≠ 0 ∧ (b < 64 ∨ 128 ≤ b)

/-- Effect of one bash escape `\X` (prompt_expansion.c lines 258-438).
`next` is the byte after the backslash, `after` the input after that.
Returns the emitted chunks (each chunk one `buf_append_char` byte or one
`buf_append_str` C-string) and how many further bytes of `after` are
consumed. -/
def bashEscape (E : SysEnv) (ctx : ExpandCtx) (next : Nat) (after : List Nat) :
    List (List Nat) × Nat :=
  match next with
  | 117 /- u -/ => ([cstr (get_username E)], 0)
  | 104 /- h -/ => ([cstr (get_hostname_short E)], 0)
  | 72 /- H -/ => ([cstr (get_hostname_full E)], 0)
  | 119 /- w -/ => ([cstr (get_cwd_tilde E)], 0)
  | 87 /- W -/ => ([cstr (get_cwd_basename E)], 0)
  | 100 /- d -/ => ([cstr E.dateAB], 0)
  | 116 /- t -/ => ([cstr E.timeHMS], 0)
  | 84 /- T -/ => ([cstr E.timeIMS], 0)
  | 64 /- @ -/ => ([cstr E.timeIMp], 0)
  | 65 /- A -/ => ([cstr E.timeHM], 0)
  | 36 /- dollar -/ => ([[if E.uid = 0 then 35 else 36]], 0)
  | 110 /- n -/ => ([[10]], 0)
  | 114 /- r -/ => ([[13]], 0)
  | 92 /- backslash -/ => ([[92]], 0)
  | 91 /- open bracket -/ => ([], 0)
  | 93 /- close bracket -/ => ([], 0)
  | 33 /- ! -/ => ([cstr (intBytes ctx.history_number)], 0)
  | 35 /- # -/ => ([cstr (intBytes ctx.command_number)], 0)
  | 106 /- j -/ => ([cstr (intBytes ctx.job_count)], 0)
  | 108 /- l -/ => ([cstr (afterLastSlash (get_tty_name E))], 0)
  | 115 /- s -/ => ([cstr E.shellName], 0)
  | 118 /- v -/ => ([cstr (decBytes E.verMajor ++ [46] ++ decBytes E.verMinor)], 0)
  | 86 /- V -/ => ([cstr E.verString], 0)
  | 101 /- e -/ => ([[27]], 0)
  | 97 /- a -/ => ([[7]], 0)
  | 48 /- 0: octal -/ =>
      let run := (after.takeWhile isOctalB).take 3
      let v := run.foldl (fun a d => a * 8 + (d - 48)) 0
      ((if v ≤ 255 then [[v]] else []), run.length)
  | 120 /- x: hex -/ =>
      let run := (after.takeWhile (fun b => (hexDigitVal b).isSome)).take 2
      let v := run.foldl (fun a d => a * 16 + (hexDigitVal d).getD 0) 0
      ((if v ≤ 255 then [[v]] else []), run.length)
  | _ => ([[92], [next]], 0)

/-- Contents of a `{...}` argument: bytes until the closing brace or NUL,
together with the number of input bytes consumed after the opening brace
(the contents plus the closing brace when present). -/
def braceArg (after1 : List Nat) : List Nat × Nat :=
  let inner := after1.takeWhile (fun b => b ≠ 0 ∧ b ≠ 125)
  let closed := (after1.drop inner.length).head? = some 125
  (inner, inner.length + (if closed then 1 else 0))

/-- Effect of one zsh escape `%X` (prompt_expansion.c lines 443-638). -/
def zshEscape (E : SysEnv) (ctx : ExpandCtx) (next : Nat) (after : List Nat) :
    List (List Nat) × Nat :=
  match next with
  | 110 /- n -/ => ([cstr (get_username E)], 0)
  | 109 /- m -/ => ([cstr (get_hostname_short E)], 0)
  | 77 /- M -/ => ([cstr (get_hostname_full E)], 0)
  | 100 /- d -/ => ([cstr (get_cwd_full E)], 0)
  | 47 /- slash -/ => ([cstr (get_cwd_full E)], 0)
  | 126 /- tilde -/ => ([cstr (get_cwd_tilde E)], 0)
  | 99 /- c -/ => ([cstr (get_cwd_basename E)], 0)
  | 46 /- . -/ => ([cstr (get_cwd_basename E)], 0)
  | 35 /- # -/ => ([[if E.uid = 0 then 35 else 37]], 0)
  | 37 /- % -/ => ([[37]], 0)
  | 84 /- T -/ => ([cstr E.timeHM], 0)
  | 116 /- t -/ => ([cstr E.timeLMp], 0)
  | 64 /- @ -/ => ([cstr E.timeLMp], 0)
  | 42 /- * -/ => ([cstr E.timeHMS], 0)
  | 106 /- j -/ => ([cstr (intBytes ctx.job_count)], 0)
  | 108 /- l -/ => ([cstr (get_tty_name E)], 0)
  | 63 /- ? -/ => ([cstr (intBytes ctx.last_exit_status)], 0)
  | 68 /- D -/ =>
      match after.head? with
      | some 123 /- open brace -/ =>
          let a := braceArg (after.drop 1)
          ([cstr (E.strftimeF (a.1.take 127))], 1 + a.2)
      | _ => ([cstr E.dateYMD], 0)
  | 66 /- B -/ => ([[27, 91, 49, 109]], 0)
  | 98 /- b -/ => ([[27, 91, 50, 50, 109]], 0)
  | 85 /- U -/ => ([[27, 91, 52, 109]], 0)
  | 117 /- u -/ => ([[27, 91, 50, 52, 109]], 0)
  | 83 /- S -/ => ([[27, 91, 55, 109]], 0)
  | 115 /- s -/ => ([[27, 91, 50, 55, 109]], 0)
  | 70 /- F -/ =>
      match after.head? with
      | some 123 =>
          let a := braceArg (after.drop 1)
          ([emit_color (a.1.take 63) ctx.color_depth true], 1 + a.2)
      | _ => ([], 0)
  | 102 /- f -/ => ([[27, 91, 51, 57, 109]], 0)
  | 75 /- K -/ =>
      match after.head? with
      | some 123 =>
          let a := braceArg (after.drop 1)
          ([emit_color (a.1.take 63) ctx.color_depth false], 1 + a.2)
      | _ => ([], 0)
  | 107 /- k -/ => ([[27, 91, 52, 57, 109]], 0)
  | _ => ([[37], [next]], 0)

/-- One iteration of the pass-2 scan loop for head byte `c` (nonzero) and
remaining input `rest`: the chunks appended to the output buffer and the
number of bytes of `rest` consumed in addition to `c`. -/
def scanStep (E : SysEnv) (ctx : ExpandCtx) (c : Nat) (rest : List Nat) :
    List (List Nat) × Nat :=
  if c = 27 then
    match rest with
    | 91 :: rest2 =>
        let params := rest2.takeWhile csiParamB
        match (rest2.drop params.length).head? with
        | some f =>
            if f ≠ 0 then ([[27], [91], params, [f]], 1 + params.length + 1)
            else ([[27], [91], params], 1 + params.length)
        | none => ([[27], [91], params], 1 + params.length)
    | _ => ([[27]], 0)
  else if c = 92 /- backslash -/ then
    match rest.head? with
    | none => ([[92]], 0)
    | some 0 => ([[92]], 0)
    | some next =>
        let e := bashEscape E ctx next (rest.drop 1)
        (e.1, 1 + e.2)
  else if c = 37 /- percent -/ then
    match rest.head? with
    | none => ([[37]], 0)
    | some 0 => ([[37]], 0)
    | some next =>
        let e := zshEscape E ctx next (rest.drop 1)
        (e.1, 1 + e.2)
  else ([[c]], 0)

/-- The scan loop, generic in how chunks are accumulated (fuel-based so the
kernel can evaluate it; fuel `input.length` always suffices because every
iteration consumes at least the head byte). -/
def scanGo {σ : Type} (emit : σ → List Nat → σ) (E : SysEnv) (ctx : ExpandCtx) :
    Nat → σ → List Nat → σ
  | 0, b, _ => b
  | _ + 1, b, [] => b
  | fuel + 1, b, c :: rest =>
      if c = 0 then b
      else
        let s := scanStep E ctx c rest
        scanGo emit E ctx fuel (s.1.foldl emit b) (rest.drop s.2)

/-- Pure value of the pass-2 scan: the bytes an unbounded buffer would
receive. -/
def expandP (E : SysEnv) (ctx : ExpandCtx) (input : List Nat) : List Nat :=
  scanGo (fun l ch => l ++ ch) E ctx input.length [] input

/-- Model of `expand_prompt_escapes` (prompt_expansion.c lines 228-647):
the scan writing through an `expand_buf_t` of capacity `size`.  Chunks are
written with `buf_append_char` folds; by `buf_append_str_eq_foldl` this is
exactly the C code's mix of `buf_append_char` and `buf_append_str`. -/
def expand_prompt_escapes (E : SysEnv) (ctx : ExpandCtx) (size : Nat)
    (input : List Nat) : ExpandBuf :=
  scanGo (fun b ch => ch.foldl buf_append_char b) E ctx input.length
    (buf_init size) input

/-- Model of `lle_prompt_expand` (prompt_expansion.c lines 653-687).
`format = none` models a NULL format pointer, `output = none` a NULL output
pointer (otherwise its buffer size), `ctx? = none` a NULL context.  The
second component is the final output-buffer state, `none` when the
function returned before writing anything. -/
def lle_prompt_expand (E : SysEnv) (format : Option (List Nat))
    (output : Option Nat) (ctx? : Option ExpandCtx) :
    LleResult × Option ExpandBuf :=
  match format, output, ctx? with
  | some f, some osz, some ctx =>
      if osz = 0 then (.null_pointer, none)
      else
        match ctx.template with
        | none => (.success, some (expand_prompt_escapes E ctx osz f))
        | some tmpl =>
            let r := tmpl f
            if r.1 ≠ .success then (r.1, some (buf_init osz))
            else
              (.success, some (expand_prompt_escapes E ctx osz
                ((r.2.take 4095).takeWhile (fun b => b ≠ 0))))
  | _, _, _ => (.null_pointer, none)

/-! ### Relating the buffered scan to the pure scan -/

theorem foldl_append_acc (chs : List (List Nat)) (acc : List Nat) :
    chs.foldl (fun l ch => l ++ ch) acc =
      acc ++ chs.foldl (fun l ch => l ++ ch) [] := by
  induction chs generalizing acc with
  | nil => simp
  | cons ch t ih =>
      simp only [List.foldl]
      rw [ih (acc ++ ch), ih ([] ++ ch)]
      simp

theorem foldl_append_flatten (chs : List (List Nat)) :
    chs.foldl (fun l ch => l ++ ch) [] = chs.flatten := by
  induction chs with
  | nil => simp
  | cons ch t ih =>
      simp only [List.foldl, List.flatten_cons]
      rw [foldl_append_acc, ih]
      simp

theorem foldl_char_out (ch : List Nat) (b : ExpandBuf) :
    ch.foldl buf_append_char b =
      { size := b.size, out := b.out ++ ch.take (b.size - 1 - b.out.length) } := by
  induction ch generalizing b with
  | nil => cases b; simp
  | cons c t ih =>
      by_cases h : b.out.length + 1 < b.size
      · rw [List.foldl, show buf_append_char b c = ⟨b.size, b.out ++ [c]⟩ by
          simp [buf_append_char, h]]
        rw [ih]
        simp only [ExpandBuf.mk.injEq, true_and]
        rw [show b.size - 1 - b.out.length = (b.size - 1 - (b.out ++ [c]).length) + 1 by
          simp; omega]
        simp [List.take_succ_cons]
      · rw [List.foldl, show buf_append_char b c = b by simp [buf_append_char, h]]
        rw [ih]
        have h0 : b.size - 1 - b.out.length = 0 := by omega
        simp [h0]

theorem foldl_chunks_out (chs : List (List Nat)) (b : ExpandBuf) :
    chs.foldl (fun b' ch => ch.foldl buf_append_char b') b =
      { size := b.size, out := b.out ++ chs.flatten.take (b.size - 1 - b.out.length) } := by
  induction chs generalizing b with
  | nil => cases b; simp
  | cons ch t ih =>
      rw [List.foldl, foldl_char_out, ih]
      simp only [List.flatten_cons, ExpandBuf.mk.injEq, true_and, List.append_assoc,
        List.length_append, List.length_take]
      rw [List.take_append_eq_append_take]
      congr 2
      congr 1
      omega

theorem scanGo_fuel {σ : Type} (emit : σ → List Nat → σ) (E : SysEnv)
    (ctx : ExpandCtx) :
    ∀ (f₁ f₂ : Nat) (b : σ) (input : List Nat),
      input.length ≤ f₁ → input.length ≤ f₂ →
      scanGo emit E ctx f₁ b input = scanGo emit E ctx f₂ b input := by
  intro f₁
  induction f₁ with
  | zero =>
      intro f₂ b input h1 _
      have hnil : input = [] := by
        cases input with
        | nil => rfl
        | cons c rest => simp at h1
      subst hnil
      cases f₂ <;> rfl
  | succ n ih =>
      intro f₂ b input h1 h2
      cases input with
      | nil => cases f₂ <;> rfl
      | cons c rest =>
          cases f₂ with
          | zero => simp at h2
          | succ m =>
              simp only [scanGo]
              by_cases hc : c = 0
              · simp [hc]
              · rw [if_neg hc, if_neg hc]
                have hd := List.length_drop (scanStep E ctx c rest).2 rest
                have h1b : rest.length + 1 ≤ n + 1 := by simpa using h1
                have h2b : rest.length + 1 ≤ m + 1 := by simpa using h2
                apply ih <;> omega

theorem scanGo_pure_acc (E : SysEnv) (ctx : ExpandCtx) :
    ∀ (fuel : Nat) (acc input : List Nat),
      scanGo (fun l ch => l ++ ch) E ctx fuel acc input =
        acc ++ scanGo (fun l ch => l ++ ch) E ctx fuel [] input := by
  intro fuel
  induction fuel with
  | zero => intro acc input; simp [scanGo]
  | succ n ih =>
      intro acc input
      cases input with
      | nil => simp [scanGo]
      | cons c rest =>
          simp only [scanGo]
          by_cases hc : c = 0
          · simp [hc]
          · rw [if_neg hc, if_neg hc,
              ih ((scanStep E ctx c rest).1.foldl (fun l ch => l ++ ch) acc),
              ih ((scanStep E ctx c rest).1.foldl (fun l ch => l ++ ch) []),
              foldl_append_acc]
            simp

theorem scanGo_buf (E : SysEnv) (ctx : ExpandCtx) :
    ∀ (fuel : Nat) (b : ExpandBuf) (input : List Nat),
      input.length ≤ fuel →
      scanGo (fun b' ch => ch.foldl buf_append_char b') E ctx fuel b input =
        { size := b.size,
          out := b.out ++ (scanGo (fun l ch => l ++ ch) E ctx fuel [] input).take
                   (b.size - 1 - b.out.length) } := by
  intro fuel
  induction fuel with
  | zero =>
      intro b input h
      have hnil : input = [] := by
        cases input with
        | nil => rfl
        | cons c rest => simp at h
      subst hnil
      cases b; simp [scanGo]
  | succ n ih =>
      intro b input h
      cases input with
      | nil => cases b; simp [scanGo]
      | cons c rest =>
          simp only [scanGo]
          by_cases hc : c = 0
          · cases b; simp [hc]
          · have hlen : (List.drop (scanStep E ctx c rest).2 rest).length ≤ n := by
              have hd := List.length_drop (scanStep E ctx c rest).2 rest
              have hb : rest.length + 1 ≤ n + 1 := by simpa using h
              omega
            rw [if_neg hc, if_neg hc, foldl_chunks_out, ih _ _ hlen,
              scanGo_pure_acc E ctx n
                ((scanStep E ctx c rest).1.foldl (fun l ch => l ++ ch) []),
              foldl_append_flatten]
            simp only [ExpandBuf.mk.injEq, true_and, List.append_assoc,
              List.length_append, List.length_take]
            rw [List.take_append_eq_append_take]
            congr 2
            congr 1
            omega

/-- The buffered pass-2 scan produces exactly the first `size - 1` bytes of
the pure scan. -/
theorem expand_prompt_escapes_eq_take (E : SysEnv) (ctx : ExpandCtx)
    (size : Nat) (input : List Nat) :
    expand_prompt_escapes E ctx size input =
      { size := size, out := (expandP E ctx input).take (size - 1) } := by
  unfold expand_prompt_escapes expandP buf_init
  rw [scanGo_buf E ctx input.length _ input (le_refl _)]
  simp

/-- Single-step unfolding of the pure scan for a nonzero head byte. -/
theorem expandP_cons (E : SysEnv) (ctx : ExpandCtx) (c : Nat) (rest : List Nat)
    (hc : c ≠ 0) :
    expandP E ctx (c :: rest) =
      (scanStep E ctx c rest).1.flatten ++
        expandP E ctx (rest.drop (scanStep E ctx c rest).2) := by
  unfold expandP
  simp only [List.length_cons, scanGo]
  rw [if_neg hc,
    scanGo_pure_acc E ctx rest.length
      ((scanStep E ctx c rest).1.foldl (fun l ch => l ++ ch) []),
    foldl_append_flatten]
  congr 1
  apply scanGo_fuel
  · have := List.length_drop (scanStep E ctx c rest).2 rest
    omega
  · exact le_refl _

theorem expandP_nil (E : SysEnv) (ctx : ExpandCtx) : expandP E ctx [] = [] := rfl

theorem takeWhile_length_le (p : Nat → Bool) (l : List Nat) :
    (l.takeWhile p).length ≤ l.length := (List.takeWhile_sublist p).length_le

theorem expand_prompt_escapes_size (E : SysEnv) (ctx : ExpandCtx)
    (size : Nat) (input : List Nat) :
    (expand_prompt_escapes E ctx size input).size = size := by
  rw [expand_prompt_escapes_eq_take]

theorem expand_prompt_escapes_len (E : SysEnv) (ctx : ExpandCtx)
    (size : Nat) (input : List Nat) (h : 1 ≤ size) :
    (expand_prompt_escapes E ctx size input).out.length < size := by
  rw [expand_prompt_escapes_eq_take]
  simp only [List.length_take]
  omega

/-! ### Concrete inputs for witnesses -/

/-- A concrete process environment: user `alice`, host `hq.ex`, cwd `/home`,
real uid 1000, effective uid 0. -/
def envW : SysEnv :=
  { passwd := some ([97, 108, 105, 99, 101], [47, 104, 111, 109, 101]),
    hostname := some [104, 113, 46, 101, 120],
    cwd := some [47, 104, 111, 109, 101],
    uid := 1000, euid := 0, tty := none,
    dateAB := [], timeHMS := [], timeIMS := [], timeIMp := [], timeHM := [],
    timeLMp := [], dateYMD := [], strftimeF := fun _ => [],
    shellName := [108, 117, 115, 104], verMajor := 1, verMinor := 3,
    verString := [49, 46, 51] }

/-- A concrete expansion context with no template engine and truecolor depth. -/
def ctxW : ExpandCtx :=
  { template := none, last_exit_status := 0, job_count := 0,
    history_number := 1, command_number := 1, color_depth := 3 }

/-! ### C1 -/

/-- C1: `lle_prompt_expand` fails with `null_pointer` (writing nothing) when
the format, output or context pointer is NULL or the output size is zero;
for every other input the output buffer ends up NUL-terminated with
`strlen(output) < output_size` (the buffer keeps its capacity, its written
contents are shorter than the capacity, so the terminator fits, and the
C-string length is below the capacity); pass-2 overflow is silent: with no
template engine the result is always `success`, truncation never surfaces
as an error. -/
theorem c1_prompt_expand_contract :
    (∀ (E : SysEnv) (fmt : Option (List Nat)) (out : Option Nat)
        (ctx? : Option ExpandCtx),
        fmt = none ∨ out = none ∨ out = some 0 ∨ ctx? = none →
        lle_prompt_expand E fmt out ctx? = (.null_pointer, none)) ∧
    (∀ (E : SysEnv) (f : List Nat) (osz : Nat) (ctx : ExpandCtx),
        1 ≤ osz →
        ∃ b : ExpandBuf,
          (lle_prompt_expand E (some f) (some osz) (some ctx)).2 = some b ∧
            b.size = osz ∧ b.out.length < osz ∧
            (b.out.takeWhile (fun x => x ≠ 0)).length < osz) ∧
    (∀ (E : SysEnv) (f : List Nat) (osz : Nat) (ctx : ExpandCtx),
        1 ≤ osz → ctx.template = none →
        (lle_prompt_expand E (some f) (some osz) (some ctx)).1 = .success) := by
  refine ⟨?_, ?_, ?_⟩
  · rintro E fmt out ctx? (rfl | rfl | rfl | rfl)
    · cases out <;> cases ctx? <;> rfl
    · cases fmt <;> cases ctx? <;> rfl
    · cases fmt <;> cases ctx? <;> simp [lle_prompt_expand]
    · cases fmt <;> cases out <;> rfl
  · intro E f osz ctx h
    simp only [lle_prompt_expand]
    rw [if_neg (by omega)]
    cases htmpl : ctx.template with
    | none =>
        refine ⟨_, rfl, expand_prompt_escapes_size .., expand_prompt_escapes_len _ _ _ _ h, ?_⟩
        calc ((expand_prompt_escapes E ctx osz f).out.takeWhile
                (fun x => x ≠ 0)).length
            ≤ (expand_prompt_escapes E ctx osz f).out.length :=
              takeWhile_length_le _ _
          _ < osz := expand_prompt_escapes_len _ _ _ _ h
    | some tmpl =>
        by_cases hr : (tmpl f).1 = LleResult.success
        · simp only [hr, ne_eq, not_true_eq_false, if_false, ite_false]
          refine ⟨_, rfl, expand_prompt_escapes_size .., expand_prompt_escapes_len _ _ _ _ h, ?_⟩
          calc ((expand_prompt_escapes E ctx osz
                  (((tmpl f).2.take 4095).takeWhile (fun b => b ≠ 0))).out.takeWhile
                  (fun x => x ≠ 0)).length
              ≤ (expand_prompt_escapes E ctx osz
                  (((tmpl f).2.take 4095).takeWhile (fun b => b ≠ 0))).out.length :=
                takeWhile_length_le _ _
            _ < osz := expand_prompt_escapes_len _ _ _ _ h
        · simp only [ne_eq, hr, not_false_eq_true, if_true, ite_true]
          exact ⟨buf_init osz, rfl, rfl, by simp [buf_init]; omega, by simp [buf_init]; omega⟩
  · intro E f osz ctx h htmpl
    simp only [lle_prompt_expand, htmpl]
    rw [if_neg (by omega)]

/-- Witness for C1 at concrete inputs: a NULL format pointer fails with
`null_pointer`, and expanding `"a"` into a 4-byte buffer satisfies the
success contract. -/
theorem c1_prompt_expand_contract_witness :
    lle_prompt_expand envW none none none = (.null_pointer, none) ∧
    (∃ b : ExpandBuf,
        (lle_prompt_expand envW (some [97]) (some 4) (some ctxW)).2 = some b ∧
          b.size = 4 ∧ b.out.length < 4 ∧
          (b.out.takeWhile (fun x => x ≠ 0)).length < 4) ∧
    (lle_prompt_expand envW (some [97]) (some 4) (some ctxW)).1 = .success :=
  ⟨c1_prompt_expand_contract.1 envW none none none (Or.inl rfl),
   c1_prompt_expand_contract.2.1 envW [97] 4 ctxW (by omega),
   c1_prompt_expand_contract.2.2 envW [97] 4 ctxW (by omega) rfl⟩

/-! ### C2 -/

theorem expandP_plain (E : SysEnv) (ctx : ExpandCtx) :
    ∀ S : List Nat, (∀ b ∈ S, b ≠ 0 ∧ b ≠ 27 ∧ b ≠ 92 ∧ b ≠ 37) →
      expandP E ctx S = S := by
  intro S
  induction S with
  | nil => intro _; rfl
  | cons c rest ih =>
      intro h
      obtain ⟨hc0, hc27, hc92, hc37⟩ := h c (by simp)
      rw [expandP_cons E ctx c rest hc0,
        show scanStep E ctx c rest = ([[c]], 0) by simp [scanStep, hc27, hc92, hc37]]
      simp [ih (fun b hb => h b (by simp [hb]))]

/-- C2: a format string with no backslash, no percent and no ESC byte is
returned unchanged by `lle_prompt_expand` when the template context is NULL
and the output buffer is larger than the string. -/
theorem c2_no_escape_identity (E : SysEnv) (ctx : ExpandCtx) (S : List Nat)
    (osz : Nat)
    (hbytes : ∀ b ∈ S, b < 256 ∧ b ≠ 0 ∧ b ≠ 27 ∧ b ≠ 92 ∧ b ≠ 37)
    (hsz : S.length < osz) (htmpl : ctx.template = none) :
    lle_prompt_expand E (some S) (some osz) (some ctx) =
      (.success, some { size := osz, out := S }) := by
  simp only [lle_prompt_expand, htmpl]
  rw [if_neg (by omega), expand_prompt_escapes_eq_take,
    expandP_plain E ctx S (fun b hb => (hbytes b hb).2),
    List.take_of_length_le (by omega)]

/-- Witness for C2: expanding the plain string `"hi"` into a 10-byte buffer
returns it unchanged. -/
theorem c2_no_escape_identity_witness :
    lle_prompt_expand envW (some [104, 105]) (some 10) (some ctxW) =
      (.success, some { size := 10, out := [104, 105] }) :=
  c2_no_escape_identity envW ctxW [104, 105] 10 (by decide) (by decide) rfl

/-! ### C3 -/

theorem takeWhile_append_stop (p : Nat → Bool) (l₁ : List Nat) (x : Nat)
    (l₂ : List Nat) (h1 : ∀ a ∈ l₁, p a = true) (hx : p x = false) :
    (l₁ ++ x :: l₂).takeWhile p = l₁ := by
  induction l₁ with
  | nil => simp [List.takeWhile_cons, hx]
  | cons a t ih =>
      simp [List.takeWhile_cons, h1 a (by simp),
        ih (fun b hb => h1 b (by simp [hb]))]

theorem scanStep_csi (E : SysEnv) (ctx : ExpandCtx) (params : List Nat)
    (final : Nat) (F : List Nat)
    (hp : ∀ b ∈ params, 32 ≤ b ∧ b ≤ 63) (hf1 : 64 ≤ final) (hf2 : final ≤ 126) :
    scanStep E ctx 27 (91 :: (params ++ final :: F)) =
      ([[27], [91], params, [final]], 1 + params.length + 1) := by
  have hpw : (params ++ final :: F).takeWhile csiParamB = params :=
    takeWhile_append_stop _ _ _ _
      (fun a ha => by
        have := hp a ha
        simp only [csiParamB, decide_eq_true_eq]
        omega)
      (by simp only [csiParamB, decide_eq_false_iff_not]; omega)
  have hdl : (params ++ final :: F).drop params.length = final :: F :=
    List.drop_left ..
  simp [scanStep, hpw, hdl]
  omega

/-- C3: expansion commutes with prefixing an ANSI CSI sequence
`ESC [ params final` (parameter bytes `0x20..0x3F`, final byte
`0x40..0x7E`): the pure scan satisfies `expand(E ++ F) = E ++ expand(F)`
exactly, and the buffered scan satisfies it whenever the output buffer is
large enough that nothing is truncated; the CSI bytes are copied through
intact ahead of escape dispatch. -/
theorem c3_ansi_passthrough (E : SysEnv) (ctx : ExpandCtx) (params : List Nat)
    (final : Nat) (F : List Nat) (osz : Nat)
    (hp : ∀ b ∈ params, 32 ≤ b ∧ b ≤ 63) (hf1 : 64 ≤ final) (hf2 : final ≤ 126)
    (hsz : (expandP E ctx (27 :: 91 :: (params ++ final :: F))).length < osz) :
    expandP E ctx (27 :: 91 :: (params ++ final :: F)) =
      (27 :: 91 :: (params ++ [final])) ++ expandP E ctx F ∧
    (expand_prompt_escapes E ctx osz (27 :: 91 :: (params ++ final :: F))).out =
      (27 :: 91 :: (params ++ [final])) ++
        (expand_prompt_escapes E ctx (osz - (params.length + 3)) F).out := by
  have hdrop : (91 :: (params ++ final :: F)).drop (1 + params.length + 1) = F := by
    rw [show (91 :: (params ++ final :: F)) = (91 :: (params ++ [final])) ++ F by
        simp,
      show 1 + params.length + 1 = (91 :: (params ++ [final])).length by
        simp; omega,
      List.drop_left]
  have hpure : expandP E ctx (27 :: 91 :: (params ++ final :: F)) =
      (27 :: 91 :: (params ++ [final])) ++ expandP E ctx F := by
    rw [expandP_cons E ctx 27 (91 :: (params ++ final :: F)) (by omega),
      scanStep_csi E ctx params final F hp hf1 hf2]
    simp [hdrop]
  refine ⟨hpure, ?_⟩
  rw [expand_prompt_escapes_eq_take, expand_prompt_escapes_eq_take]
  simp only []
  rw [hpure] at hsz ⊢
  rw [List.take_of_length_le (by simp at hsz ⊢; omega),
    List.take_of_length_le (by simp at hsz ⊢; omega)]

/-- Witness for C3: prefixing the CSI sequence `ESC [ 3 1 m` to the input
`"a"` commutes with expansion in a 20-byte buffer. -/
theorem c3_ansi_passthrough_witness :
    expandP envW ctxW (27 :: 91 :: ([51, 49] ++ 109 :: [97])) =
      (27 :: 91 :: ([51, 49] ++ [109])) ++ expandP envW ctxW [97] ∧
    (expand_prompt_escapes envW ctxW 20 (27 :: 91 :: ([51, 49] ++ 109 :: [97]))).out =
      (27 :: 91 :: ([51, 49] ++ [109])) ++
        (expand_prompt_escapes envW ctxW (20 - (List.length [51, 49] + 3)) [97]).out :=
  c3_ansi_passthrough envW ctxW [51, 49] 109 [97] 20 (by decide) (by decide)
    (by decide) (by decide)

/-! ### C5 -/

/-- Counterexample for C5: the code expands `\\$` using `getuid()` (the real
uid), not the effective uid.  In an environment with real uid 1000 and
effective uid 0 the output is `"$"` (0x24), where the claim demands `"#"`
(0x23) because the effective uid is 0. -/
theorem c5_dollar_uid_counterexample :
    envW.euid = 0 ∧
    lle_prompt_expand envW (some [92, 36]) (some 8) (some ctxW) =
      (.success, some { size := 8, out := [36] }) ∧
    (36 : Nat) ≠ 35 :=
  ⟨rfl, by decide, by decide⟩

/-- C5 (amended): the bash escape `\$` expands to `#` when the real uid
(`getuid()`) is 0 and to `$` otherwise; the effective uid plays no role. -/
theorem c5_dollar_uid (E : SysEnv) (ctx : ExpandCtx) :
    expandP E ctx [92, 36] = [if E.uid = 0 then 35 else 36] ∧
    (∀ osz : Nat, 2 ≤ osz → ctx.template = none →
      lle_prompt_expand E (some [92, 36]) (some osz) (some ctx) =
        (.success, some { size := osz, out := [if E.uid = 0 then 35 else 36] })) := by
  have hpure : expandP E ctx [92, 36] = [if E.uid = 0 then 35 else 36] := by
    rw [expandP_cons E ctx 92 [36] (by omega)]
    simp [scanStep, bashEscape, expandP_nil]
  refine ⟨hpure, fun osz hosz htmpl => ?_⟩
  simp only [lle_prompt_expand, htmpl]
  rw [if_neg (by omega), expand_prompt_escapes_eq_take, hpure,
    List.take_of_length_le (by simp; omega)]

/-- Witness for C5 at a concrete buffer size. -/
theorem c5_dollar_uid_witness :
    expandP envW ctxW [92, 36] = [if envW.uid = 0 then 35 else 36] ∧
    lle_prompt_expand envW (some [92, 36]) (some 8) (some ctxW) =
      (.success, some { size := 8, out := [if envW.uid = 0 then 35 else 36] }) :=
  ⟨(c5_dollar_uid envW ctxW).1, (c5_dollar_uid envW ctxW).2 8 (by omega) rfl⟩

/-! ### C4 -/

theorem takeWhile_all {p : Nat → Bool} {l : List Nat}
    (h : ∀ b ∈ l, p b = true) : l.takeWhile p = l := by
  induction l with
  | nil => rfl
  | cons c t ih =>
      rw [List.takeWhile_cons, if_pos (h c (by simp)),
        ih (fun b hb => h b (by simp [hb]))]

theorem cstr_eq_self {l : List Nat} (h : ∀ b ∈ l, b ≠ 0) : cstr l = l :=
  takeWhile_all (fun b hb => by simpa using h b hb)

theorem hexDigitVal_facts {d v : Nat} (h : hexDigitVal d = some v) :
    isSpaceB d = false ∧ d ≠ 0 ∧ 48 ≤ d := by
  unfold hexDigitVal at h
  split_ifs at h <;> refine ⟨by simp [isSpaceB]; omega, by omega, by omega⟩

theorem scan2x_two {d1 d2 v1 v2 : Nat} (l : List Nat)
    (h1 : hexDigitVal d1 = some v1) (h2 : hexDigitVal d2 = some v2) :
    scan2x (d1 :: d2 :: l) = some (v1 * 16 + v2, l) := by
  have hs1 := (hexDigitVal_facts h1).1
  simp [scan2x, List.dropWhile_cons, hs1, h1, h2]

theorem strtolDec_digits (ds : List Nat) (hne : ds ≠ [])
    (hd : ∀ b ∈ ds, 48 ≤ b ∧ b ≤ 57) :
    strtolDec ds =
      some (((ds.foldl (fun a d => a * 10 + (d - 48)) 0 : Nat) : Int),
            ([] : List Nat)) := by
  cases ds with
  | nil => simp at hne
  | cons d t =>
      have hd0 := hd d (by simp)
      have hsp : isSpaceB d = false := by simp [isSpaceB]; omega
      have hdw : ∀ b ∈ d :: t, isDigitB b = true := by
        intro b hb
        have := hd b hb
        simp [isDigitB]
        omega
      have h45 : ¬(some d = some 45) := by simp; omega
      have h43 : ¬(some d = some 45 ∨ some d = some 43) := by simp; omega
      simp only [strtolDec, List.dropWhile_cons, hsp, Bool.false_eq_true,
        if_false, List.head?_cons, if_neg h45, if_neg h43, takeWhile_all hdw]
      simp

theorem noParse_of_none {s : List Nat} (hs : strtolDec s = none) :
    ∀ num rest, strtolDec s = some (num, rest) →
      ¬(rest = [] ∧ 0 ≤ num ∧ num ≤ 255) := by
  intro num rest h
  rw [hs] at h
  cases h

theorem emit_color_unparsed (spec : List Nat) (d : Int) (fg : Bool)
    (hhex : (if (cstr spec).head? = some 35 ∧ (cstr spec).length = 7
             then sscanf3hex ((cstr spec).drop 1) else none) = none)
    (hnum : ∀ num rest, strtolDec (cstr spec) = some (num, rest) →
      ¬(rest = [] ∧ 0 ≤ num ∧ num ≤ 255)) :
    emit_color spec d fg = if d = 0 then [] else namedLookup (cstr spec) fg := by
  by_cases hd : d = 0
  · simp [emit_color, hd]
  · simp only [emit_color, hhex, if_neg hd]
    cases hsd : strtolDec (cstr spec) with
    | none => simp
    | some pr =>
        have := hnum pr.1 pr.2 (by rw [hsd])
        simp [if_neg this]

/-- C4 (amended): color-spec handling in `emit_color`.
(1) A spec `#RRGGBB` of six hex digits emits `ESC[38;2;R;G;Bm` (`48` for
background) at truecolor depth, the 6x6x6-cube approximation
`ESC[38;5;(16+36ri+6gi+bi)m` with `ci = (c>47) ? (c-35)/40 : 0` at depth
256, and nothing at basic depth.
(2) A spec of decimal digits with value `N <= 255` emits `ESC[38;5;Nm`
(`48` for background) at depths 256 and truecolor and `ESC[(30|40)+N%8 m`
at basic depth.
(3) Each of the nine named colors emits `ESC[(30|40)+code m` at every
nonzero depth.
(4) A spec accepted by none of the three parsers emits nothing — but,
against the claim's wording, the hex parser is `sscanf("%2x%2x%2x")` and
the decimal parser is `strtol`, both of which skip leading whitespace (and
`strtol` accepts a sign), so some specs not of the literal form `#RRGGBB`
or a bare integer are still recognised and do emit bytes (see the
counterexample theorem). -/
theorem c4_emit_color_amended :
    (∀ (fg : Bool) (d1 d2 d3 d4 d5 d6 v1 v2 v3 v4 v5 v6 : Nat),
      hexDigitVal d1 = some v1 → hexDigitVal d2 = some v2 →
      hexDigitVal d3 = some v3 → hexDigitVal d4 = some v4 →
      hexDigitVal d5 = some v5 → hexDigitVal d6 = some v6 →
      emit_color [35, d1, d2, d3, d4, d5, d6] 3 fg =
        sgr (decBytes (if fg then 38 else 48) ++ [59, 50, 59] ++
          decBytes (v1 * 16 + v2) ++ [59] ++ decBytes (v3 * 16 + v4) ++ [59] ++
          decBytes (v5 * 16 + v6)) ∧
      emit_color [35, d1, d2, d3, d4, d5, d6] 2 fg =
        sgr (decBytes (if fg then 38 else 48) ++ [59, 53, 59] ++
          decBytes (16 +
            36 * (if v1 * 16 + v2 > 47 then (v1 * 16 + v2 - 35) / 40 else 0) +
            6 * (if v3 * 16 + v4 > 47 then (v3 * 16 + v4 - 35) / 40 else 0) +
            (if v5 * 16 + v6 > 47 then (v5 * 16 + v6 - 35) / 40 else 0))) ∧
      emit_color [35, d1, d2, d3, d4, d5, d6] 1 fg = []) ∧
    (∀ (fg : Bool) (ds : List Nat), ds ≠ [] →
      (∀ b ∈ ds, 48 ≤ b ∧ b ≤ 57) →
      ds.foldl (fun a d => a * 10 + (d - 48)) 0 ≤ 255 →
      (∀ d : Int, d ≥ 2 → emit_color ds d fg =
        sgr (decBytes (if fg then 38 else 48) ++ [59, 53, 59] ++
          decBytes (ds.foldl (fun a d => a * 10 + (d - 48)) 0))) ∧
      emit_color ds 1 fg =
        sgr (decBytes ((if fg then 30 else 40) +
          ds.foldl (fun a d => a * 10 + (d - 48)) 0 % 8))) ∧
    (∀ (fg : Bool) (d : Int), d ≠ 0 →
      ∀ p ∈ namedColors, emit_color p.1 d fg =
        sgr (decBytes ((if fg then 30 else 40) + p.2))) ∧
    (∀ (spec : List Nat) (d : Int) (fg : Bool),
      (if (cstr spec).head? = some 35 ∧ (cstr spec).length = 7
       then sscanf3hex ((cstr spec).drop 1) else none) = none →
      (∀ num rest, strtolDec (cstr spec) = some (num, rest) →
        ¬(rest = [] ∧ 0 ≤ num ∧ num ≤ 255)) →
      namedColors.find? (fun p => p.1 = cstr spec) = none →
      emit_color spec d fg = []) := by
  refine ⟨?_, ?_, ?_, ?_⟩
  · intro fg d1 d2 d3 d4 d5 d6 v1 v2 v3 v4 v5 v6 h1 h2 h3 h4 h5 h6
    have hall : ∀ b ∈ ([35, d1, d2, d3, d4, d5, d6] : List Nat), b ≠ 0 := by
      intro b hb
      simp only [List.mem_cons] at hb
      rcases hb with rfl | rfl | rfl | rfl | rfl | rfl | rfl | h
      · omega
      · exact (hexDigitVal_facts h1).2.1
      · exact (hexDigitVal_facts h2).2.1
      · exact (hexDigitVal_facts h3).2.1
      · exact (hexDigitVal_facts h4).2.1
      · exact (hexDigitVal_facts h5).2.1
      · exact (hexDigitVal_facts h6).2.1
      · simp at h
    have hc : cstr [35, d1, d2, d3, d4, d5, d6] = [35, d1, d2, d3, d4, d5, d6] :=
      cstr_eq_self hall
    have hscan : sscanf3hex [d1, d2, d3, d4, d5, d6] =
        some (v1 * 16 + v2, v3 * 16 + v4, v5 * 16 + v6) := by
      simp [sscanf3hex, scan2x_two _ h1 h2, scan2x_two _ h3 h4,
        scan2x_two _ h5 h6]
    refine ⟨?_, ?_, ?_⟩ <;>
      · simp only [emit_color, hc]
        norm_num
        rw [hscan]
  · intro fg ds hne hd hval
    have hall : ∀ b ∈ ds, b ≠ 0 := fun b hb => by have := hd b hb; omega
    have hc : cstr ds = ds := cstr_eq_self hall
    have hhead : ¬(ds.head? = some 35 ∧ ds.length = 7) := by
      cases ds with
      | nil => simp at hne
      | cons a t =>
          have := hd a (by simp)
          simp only [List.head?_cons, not_and]
          intro hh
          injection hh with hh
          omega
    have hnum := strtolDec_digits ds hne hd
    have hle : ((ds.foldl (fun a d => a * 10 + (d - 48)) 0 : Nat) : Int) ≤ 255 := by
      exact_mod_cast hval
    constructor
    · intro d hd2
      have hd0 : ¬(d : Int) = 0 := by omega
      simp [emit_color, hc, hhead, hnum, hd0, hd2, Int.ofNat_nonneg, hle]
    · simp [emit_color, hc, hhead, hnum, Int.ofNat_nonneg, hle,
        show ¬(1 : Int) = 0 by norm_num, show ¬(1 : Int) ≥ 2 by norm_num]
  · intro fg d hd p hp
    fin_cases hp <;> cases fg <;>
      · rw [emit_color_unparsed _ d _ (by decide)
            (noParse_of_none (by decide)), if_neg hd]
        decide
  · intro spec d fg hhex hnum hname
    rw [emit_color_unparsed spec d fg hhex hnum]
    simp [namedLookup, hname]

/-- Counterexample for C4: the spec `"# 1 2 3"` is not of the form
`#RRGGBB`, is not a decimal integer, and is not a named color, so by the
claim it should emit nothing; but `sscanf`'s `%2x` conversions skip
leading whitespace, so at truecolor depth the code emits
`ESC[38;2;1;2;3m`. -/
theorem c4_emit_color_counterexample :
    emit_color [35, 32, 49, 32, 50, 32, 51] 3 true =
      [27, 91, 51, 56, 59, 50, 59, 49, 59, 50, 59, 51, 109] ∧
    emit_color [35, 32, 49, 32, 50, 32, 51] 3 true ≠ [] :=
  ⟨by decide, by decide⟩

/-- Witness for C4 at concrete inputs: `#FF0000` at the three depths, the
decimal spec `"42"`, the named color `"red"`, and an unrecognised spec. -/
theorem c4_emit_color_amended_witness :
    (emit_color [35, 70, 70, 48, 48, 48, 48] 3 true =
        sgr (decBytes 38 ++ [59, 50, 59] ++ decBytes 255 ++ [59] ++
          decBytes 0 ++ [59] ++ decBytes 0) ∧
      emit_color [35, 70, 70, 48, 48, 48, 48] 2 true =
        sgr (decBytes 38 ++ [59, 53, 59] ++ decBytes 196) ∧
      emit_color [35, 70, 70, 48, 48, 48, 48] 1 true = []) ∧
    emit_color [52, 50] 2 true =
      sgr (decBytes 38 ++ [59, 53, 59] ++ decBytes 42) ∧
    emit_color [52, 50] 1 false = sgr (decBytes (40 + 2)) ∧
    emit_color [114, 101, 100] 2 true = sgr (decBytes 31) ∧
    emit_color [122, 122, 122] 3 true = [] := by
  have h1 := c4_emit_color_amended.1 true 70 70 48 48 48 48 15 15 0 0 0 0
    (by decide) (by decide) (by decide) (by decide) (by decide) (by decide)
  have h2 := c4_emit_color_amended.2.1 true [52, 50] (by decide) (by decide)
    (by decide)
  have h2b := c4_emit_color_amended.2.1 false [52, 50] (by decide) (by decide)
    (by decide)
  have h3 := c4_emit_color_amended.2.2.1 true 2 (by decide)
    ([114, 101, 100], 1) (by decide)
  have h4 := c4_emit_color_amended.2.2.2 [122, 122, 122] 3 true (by decide)
    (noParse_of_none (by decide)) (by decide)
  refine ⟨⟨?_, ?_, h1.2.2⟩, ?_, ?_, ?_, h4⟩
  · rw [h1.1]; decide
  · rw [h1.2.1]; decide
  · rw [h2.1 2 (by norm_num)]; decide
  · rw [h2b.2]; decide
  · rw [h3]; decide

/-! ### Timed subprocess runner (git_command.c) -/

/-- `GIT_CMD_SYNC_TIMEOUT_MS` (git_command.h line 30). -/
def GIT_CMD_SYNC_TIMEOUT_MS : Nat := 3000

/-- `GIT_CMD_ASYNC_TIMEOUT_MS` (git_command.h line 33). -/
def GIT_CMD_ASYNC_TIMEOUT_MS : Nat := 5000

/-- Outcome of the parent's `select` call, split the way the code tests it:
negative return with `errno != EINTR`, negative with `EINTR`, zero
(timeout), or positive (data ready). -/
inductive SelectOutcome where
  | errOther
  | errIntr
  | timeout
  | ready
deriving DecidableEq, Repr

/-- Outcomes of the system calls `git_command_with_timeout` performs: pipe
and fork success, the `select` result as a function of the timeval passed
to it, the bytes the pipe delivers before EOF, and the `waitpid` status
(`WIFEXITED` plus `WEXITSTATUS`). -/
structure SubprocWorld where
  pipe_ok : Bool
  fork_ok : Bool
  select : Nat × Nat → SelectOutcome
  child_output : List Nat
  wait_exited : Bool
  wait_code : Nat

/-- `git_cmd_result_t`. -/
structure GitCmdResult where
  exit_status : Int
  timed_out : Bool
deriving DecidableEq, Repr

/-- The timeval handed to `select`: `tv_sec = t / 1000`,
`tv_usec = (t % 1000) * 1000` (git_command.c lines 160-162). -/
def gitSelectTv (t : Nat) : Nat × Nat := (t / 1000, t % 1000 * 1000)

/-- Trailing `\n`/`\r` removal (git_command.c lines 190-195). -/
def trimNlCr (l : List Nat) : List Nat :=
  (l.reverse.dropWhile (fun b => b = 10 ∨ b = 13)).reverse

/-- Model of `git_command_with_timeout` (git_command.c lines 104-209).
`cmd = none` models a NULL command; `output = none` a NULL output buffer,
otherwise its size.  The second component is the output buffer's final
C-string contents, `none` when nothing was written.  The child-process
branch, the kill escalation and the draining reads have no effect on the
returned record and are not represented. -/
def git_command_with_timeout (w : SubprocWorld) (cmd : Option (List Nat))
    (output : Option Nat) (timeout_ms : Nat) :
    GitCmdResult × Option (List Nat) :=
  match cmd with
  | none => ({ exit_status := -1, timed_out := false }, none)
  | some _ =>
      let t := if timeout_ms = 0 then GIT_CMD_SYNC_TIMEOUT_MS else timeout_ms
      let cleared : Option (List Nat) :=
        match output with
        | some osz => if 0 < osz then some [] else none
        | none => none
      if w.pipe_ok then
        if w.fork_ok then
          match w.select (gitSelectTv t) with
          | .errOther => ({ exit_status := -1, timed_out := false }, cleared)
          | .timeout => ({ exit_status := -1, timed_out := true }, cleared)
          | _ =>
              let captured : Option (List Nat) :=
                match output with
                | some osz =>
                    if 0 < osz then
                      some (trimNlCr ((w.child_output.take (osz - 1)).takeWhile
                        (fun b => b ≠ 0)))
                    else none
                | none => none
              ({ exit_status := if w.wait_exited then (w.wait_code : Int) else -1,
                 timed_out := false }, captured)
        else ({ exit_status := -1, timed_out := false }, cleared)
      else ({ exit_status := -1, timed_out := false }, cleared)

/-- Model of `git_command_in_dir` (git_command.c lines 211-227): composes
the `git -C '<dir>' <args> 2>/dev/null` command line and delegates.  The
1024-byte command buffer bound is kept. -/
def git_command_in_dir (w : SubprocWorld) (dir : Option (List Nat))
    (args : Option (List Nat)) (output : Option Nat) (timeout_ms : Nat) :
    GitCmdResult × Option (List Nat) :=
  match dir, args with
  | some d, some a =>
      let cmdline := [103, 105, 116, 32, 45, 67, 32, 39] ++ d ++ [39, 32] ++ a ++
        [32, 50, 62, 47, 100, 101, 118, 47, 110, 117, 108, 108]
      if cmdline.length + 1 > 1024 then
        ({ exit_status := -1, timed_out := false }, none)
      else git_command_with_timeout w (some cmdline) output timeout_ms
  | _, _ => ({ exit_status := -1, timed_out := false }, none)

/-! ### C6 -/

/-- C6: pipe-creation failure or fork failure yields
`{exit_status = -1, timed_out = false}`; a `select` that reports zero ready
events (timeout) yields `{exit_status = -1, timed_out = true}`; and on
every path, `timed_out = true` implies `exit_status = -1`. -/
theorem c6_subprocess_errors :
    (∀ (w : SubprocWorld) (cmd : List Nat) (out : Option Nat) (t : Nat),
      w.pipe_ok = false →
      (git_command_with_timeout w (some cmd) out t).1 =
        { exit_status := -1, timed_out := false }) ∧
    (∀ (w : SubprocWorld) (cmd : List Nat) (out : Option Nat) (t : Nat),
      w.fork_ok = false →
      (git_command_with_timeout w (some cmd) out t).1 =
        { exit_status := -1, timed_out := false }) ∧
    (∀ (w : SubprocWorld) (cmd : List Nat) (out : Option Nat) (t : Nat),
      w.pipe_ok = true → w.fork_ok = true →
      w.select (gitSelectTv (if t = 0 then GIT_CMD_SYNC_TIMEOUT_MS else t)) =
        .timeout →
      (git_command_with_timeout w (some cmd) out t).1 =
        { exit_status := -1, timed_out := true }) ∧
    (∀ (w : SubprocWorld) (cmd : Option (List Nat)) (out : Option Nat) (t : Nat),
      (git_command_with_timeout w cmd out t).1.timed_out = true →
      (git_command_with_timeout w cmd out t).1.exit_status = -1) := by
  refine ⟨?_, ?_, ?_, ?_⟩
  · intro w cmd out t hp
    simp [git_command_with_timeout, hp]
  · intro w cmd out t hf
    by_cases hp : w.pipe_ok <;> simp [git_command_with_timeout, hp, hf]
  · intro w cmd out t hp hf hsel
    simp [git_command_with_timeout, hp, hf, hsel]
  · intro w cmd out t
    cases cmd with
    | none => simp [git_command_with_timeout]
    | some c =>
        by_cases hp : w.pipe_ok <;> by_cases hf : w.fork_ok <;>
          cases hsel : w.select
              (gitSelectTv (if t = 0 then GIT_CMD_SYNC_TIMEOUT_MS else t)) <;>
            simp [git_command_with_timeout, hp, hf, hsel]

/-- A concrete world where every call succeeds. -/
def worldW : SubprocWorld :=
  { pipe_ok := true, fork_ok := true, select := fun _ => .ready,
    child_output := [111, 107, 10], wait_exited := true, wait_code := 0 }

/-- Witness for C6 at concrete worlds: pipe failure, fork failure, timeout,
and the timed-out-implies-minus-one implication. -/
theorem c6_subprocess_errors_witness :
    (git_command_with_timeout { worldW with pipe_ok := false }
        (some [103]) (some 8) 100).1 =
      { exit_status := -1, timed_out := false } ∧
    (git_command_with_timeout { worldW with fork_ok := false }
        (some [103]) (some 8) 100).1 =
      { exit_status := -1, timed_out := false } ∧
    (git_command_with_timeout { worldW with select := fun _ => .timeout }
        (some [103]) (some 8) 100).1 =
      { exit_status := -1, timed_out := true } ∧
    ((git_command_with_timeout worldW (some [103]) (some 8) 100).1.timed_out = true →
      (git_command_with_timeout worldW (some [103]) (some 8) 100).1.exit_status = -1) :=
  ⟨c6_subprocess_errors.1 _ [103] (some 8) 100 rfl,
   c6_subprocess_errors.2.1 _ [103] (some 8) 100 rfl,
   c6_subprocess_errors.2.2.1 _ [103] (some 8) 100 rfl rfl rfl,
   c6_subprocess_errors.2.2.2 worldW (some [103]) (some 8) 100⟩

/-! ### C10 -/

/-- C10: a zero `timeout_ms` is replaced by the 3000 ms default
`GIT_CMD_SYNC_TIMEOUT_MS` — the run with timeout 0 is identical to the run
with timeout 3000 — and the timeval handed to `select` is never the
zero-timeval, so a zero timeout is never passed to the I/O wait. -/
theorem c10_zero_timeout_default :
    (∀ (w : SubprocWorld) (cmd : Option (List Nat)) (out : Option Nat),
      git_command_with_timeout w cmd out 0 =
        git_command_with_timeout w cmd out GIT_CMD_SYNC_TIMEOUT_MS) ∧
    (∀ t : Nat,
      gitSelectTv (if t = 0 then GIT_CMD_SYNC_TIMEOUT_MS else t) ≠ (0, 0)) := by
  constructor
  · intro w cmd out
    cases cmd <;> rfl
  · intro t
    by_cases h : t = 0
    · subst h; decide
    · rw [if_neg h]
      intro heq
      rw [Prod.mk.injEq] at heq
      unfold gitSelectTv at heq
      simp at heq
      omega

/-- Witness for C10 at concrete inputs. -/
theorem c10_zero_timeout_default_witness :
    git_command_with_timeout worldW (some [103]) (some 8) 0 =
      git_command_with_timeout worldW (some [103]) (some 8)
        GIT_CMD_SYNC_TIMEOUT_MS ∧
    gitSelectTv (if 500 = 0 then GIT_CMD_SYNC_TIMEOUT_MS else 500) ≠ (0, 0) :=
  ⟨c10_zero_timeout_default.1 worldW (some [103]) (some 8),
   c10_zero_timeout_default.2 500⟩

/-! ### Async worker (async_worker.c) -/

/-- `lle_async_request_type_t`. -/
inductive AsyncRequestType where
  | gitStatus
  | custom
deriving DecidableEq, Repr

/-- `lle_async_request_t` (the queue link pointer is represented by the
queue list; `user_data` is irrelevant to the claims and omitted). -/
structure AsyncRequest where
  id : Nat
  rtype : AsyncRequestType
  cwd : List Nat
  timeout_ms : Nat
deriving DecidableEq, Repr

/-- Mutex-protected state of `lle_async_worker_t`.  `queue` holds the
linked list from `queue_head` to `queue_tail`; `queue_size` is the
separate counter the code maintains alongside it. -/
structure WorkerSt where
  running : Bool
  shutdown_requested : Bool
  next_request_id : Nat
  queue : List AsyncRequest
  queue_size : Nat
  total_requests : Nat
  total_completed : Nat
  total_timeouts : Nat
deriving DecidableEq, Repr

/-- State established by `lle_async_worker_init` (async_worker.c 74-83). -/
def asyncWorkerInit : WorkerSt :=
  { running := false, shutdown_requested := false, next_request_id := 1,
    queue := [], queue_size := 0, total_requests := 0, total_completed := 0,
    total_timeouts := 0 }

/-- Model of the state change of `lle_async_worker_start` (lines 93-101). -/
def worker_start (w : WorkerSt) : LleResult × WorkerSt :=
  if w.running then (.invalid_parameter, w)
  else (.success, { w with running := true, shutdown_requested := false })

/-- Model of `lle_async_worker_shutdown`'s state change (lines 119-122). -/
def worker_shutdown (w : WorkerSt) : WorkerSt :=
  { w with shutdown_requested := true }

/-- Model of `lle_async_worker_submit` (async_worker.c lines 195-231).
Returns the result code, the new state, and the request as enqueued (with
its assigned id), `none` on rejection. -/
def lle_async_worker_submit (maxQueue : Nat) (w : WorkerSt)
    (req : AsyncRequest) : LleResult × WorkerSt × Option AsyncRequest :=
  if ¬w.running ∨ w.shutdown_requested then (.invalid_state, w, none)
  else if w.queue_size ≥ maxQueue then (.resource_exhausted, w, none)
  else
    let r := { req with id := w.next_request_id }
    (.success,
     { w with next_request_id := w.next_request_id + 1,
              queue := w.queue ++ [r],
              queue_size := w.queue_size + 1,
              total_requests := w.total_requests + 1 },
     some r)

/-- The dequeue section of the worker thread (lines 310-319): pop the head
when the queue is nonempty. -/
def worker_dequeue (w : WorkerSt) : WorkerSt × Option AsyncRequest :=
  match w.queue with
  | [] => (w, none)
  | r :: rest => ({ w with queue := rest, queue_size := w.queue_size - 1 }, some r)

/-- The completion-accounting section of the worker thread (lines 347-349). -/
def worker_complete (w : WorkerSt) : WorkerSt :=
  { w with total_completed := w.total_completed + 1 }

/-- One atomic (mutex-protected) step of the worker system.  A
configuration is the worker state, the number of requests dequeued by the
worker thread but not yet counted complete (in flight), and the ghost list
of ids assigned so far.  A `complete` can only follow a matching
`dequeue`, because the single worker thread performs them in pairs. -/
inductive WStep (maxQueue : Nat) :
    WorkerSt × Nat × List Nat → WorkerSt × Nat × List Nat → Prop where
  | start (w : WorkerSt) (f : Nat) (ids : List Nat) :
      WStep maxQueue (w, f, ids) ((worker_start w).2, f, ids)
  | shutdown (w : WorkerSt) (f : Nat) (ids : List Nat) :
      WStep maxQueue (w, f, ids) (worker_shutdown w, f, ids)
  | submit (w : WorkerSt) (f : Nat) (ids : List Nat) (req : AsyncRequest) :
      WStep maxQueue (w, f, ids)
        ((lle_async_worker_submit maxQueue w req).2.1, f,
         ids ++ (match (lle_async_worker_submit maxQueue w req).2.2 with
                 | some r => [r.id]
                 | none => []))
  | dequeue (w : WorkerSt) (f : Nat) (ids : List Nat) (h : w.queue ≠ []) :
      WStep maxQueue (w, f, ids) ((worker_dequeue w).1, f + 1, ids)
  | complete (w : WorkerSt) (f : Nat) (ids : List Nat) :
      WStep maxQueue (w, f + 1, ids) (worker_complete w, f, ids)

/-- Configurations reachable from the freshly initialised worker. -/
def WReachable (maxQueue : Nat) (cfg : WorkerSt × Nat × List Nat) : Prop :=
  Relation.ReflTransGen (WStep maxQueue) (asyncWorkerInit, 0, []) cfg

theorem wreachable_invariant (maxQueue : Nat) :
    ∀ cfg, WReachable maxQueue cfg →
      cfg.1.queue_size = cfg.1.queue.length ∧
      cfg.1.total_completed + cfg.1.queue_size + cfg.2.1 = cfg.1.total_requests ∧
      (∀ i ∈ cfg.2.2, i < cfg.1.next_request_id) := by
  intro cfg h
  induction h with
  | refl => exact ⟨rfl, rfl, fun i hi => by simp [asyncWorkerInit] at hi⟩
  | tail hr hstep ih =>
      obtain ⟨ihq, ihacc, ihids⟩ := ih
      cases hstep with
      | start w f ids =>
          dsimp only at ihq ihacc ihids ⊢
          unfold worker_start
          split
          · exact ⟨ihq, ihacc, ihids⟩
          · exact ⟨ihq, ihacc, ihids⟩
      | shutdown w f ids =>
          exact ⟨ihq, ihacc, ihids⟩
      | submit w f ids req =>
          dsimp only at ihq ihacc ihids ⊢
          unfold lle_async_worker_submit
          split_ifs with h1 h2
          · exact ⟨ihq, ihacc, by simpa using ihids⟩
          · exact ⟨ihq, ihacc, by simpa using ihids⟩
          · refine ⟨by simp [ihq], by dsimp only; omega, ?_⟩
            intro i hi
            dsimp only at hi
            simp only [List.mem_append, List.mem_singleton] at hi
            rcases hi with hi | rfl
            · exact Nat.lt_succ_of_lt (ihids i hi)
            · exact Nat.lt_succ_self _
      | dequeue w f ids hne =>
          dsimp only at ihq ihacc ihids ⊢
          unfold worker_dequeue
          cases hq : w.queue with
          | nil => exact absurd hq hne
          | cons r rest =>
              rw [hq] at ihq
              simp only [List.length_cons] at ihq
              refine ⟨by simp; omega, by dsimp only; omega, ihids⟩
      | complete w f ids =>
          dsimp only at ihq ihacc ihids ⊢
          unfold worker_complete
          exact ⟨ihq, by dsimp only; omega, ihids⟩

/-! ### C7 -/

/-- C7: `submit` returns `invalid_state` leaving the state untouched when
the worker is not running or shutdown was requested; returns
`resource_exhausted` leaving the state untouched when the queue is at
capacity; on success appends the request at the tail (FIFO), assigns it
`next_request_id`, and increments the id counter, the queue size and
`total_requests`; and in every reachable configuration every previously
assigned id is strictly below `next_request_id`, so a newly assigned id is
strictly greater than all of them. -/
theorem c7_submit_contract :
    (∀ (maxQueue : Nat) (w : WorkerSt) (req : AsyncRequest),
      ¬w.running ∨ w.shutdown_requested →
      lle_async_worker_submit maxQueue w req = (.invalid_state, w, none)) ∧
    (∀ (maxQueue : Nat) (w : WorkerSt) (req : AsyncRequest),
      w.running → ¬w.shutdown_requested → w.queue_size ≥ maxQueue →
      lle_async_worker_submit maxQueue w req = (.resource_exhausted, w, none)) ∧
    (∀ (maxQueue : Nat) (w : WorkerSt) (req : AsyncRequest),
      w.running → ¬w.shutdown_requested → w.queue_size < maxQueue →
      lle_async_worker_submit maxQueue w req =
        (.success,
         { w with next_request_id := w.next_request_id + 1,
                  queue := w.queue ++ [{ req with id := w.next_request_id }],
                  queue_size := w.queue_size + 1,
                  total_requests := w.total_requests + 1 },
         some { req with id := w.next_request_id })) ∧
    (∀ (maxQueue : Nat) (w : WorkerSt) (f : Nat) (ids : List Nat),
      WReachable maxQueue (w, f, ids) →
      ∀ req r, (lle_async_worker_submit maxQueue w req).2.2 = some r →
        ∀ i ∈ ids, i < r.id) := by
  refine ⟨?_, ?_, ?_, ?_⟩
  · intro maxQueue w req h
    unfold lle_async_worker_submit
    rw [if_pos h]
  · intro maxQueue w req h1 h2 h3
    unfold lle_async_worker_submit
    rw [if_neg (by simp [h1, h2]), if_pos h3]
  · intro maxQueue w req h1 h2 h3
    unfold lle_async_worker_submit
    rw [if_neg (by simp [h1, h2]), if_neg (show ¬w.queue_size ≥ maxQueue by omega)]
  · intro maxQueue w f ids hreach req r hsome i hi
    have hids : i < w.next_request_id :=
      (wreachable_invariant maxQueue (w, f, ids) hreach).2.2 i hi
    have hrid : w.next_request_id ≤ r.id := by
      unfold lle_async_worker_submit at hsome
      by_cases h1 : ¬w.running ∨ w.shutdown_requested
      · rw [if_pos h1] at hsome
        simp at hsome
      · rw [if_neg h1] at hsome
        by_cases h2 : w.queue_size ≥ maxQueue
        · rw [if_pos h2] at hsome
          simp at hsome
        · rw [if_neg h2] at hsome
          dsimp only at hsome
          rw [Option.some.injEq] at hsome
          subst hsome
          exact Nat.le_refl _
    omega

/-- A running worker with two queued requests, obtained by start and two
submits from the initial state. -/
def workerW : WorkerSt :=
  { running := true, shutdown_requested := false, next_request_id := 3,
    queue := [{ id := 1, rtype := .gitStatus, cwd := [47], timeout_ms := 5000 },
              { id := 2, rtype := .gitStatus, cwd := [47], timeout_ms := 5000 }],
    queue_size := 2, total_requests := 2, total_completed := 0,
    total_timeouts := 0 }

/-- A request before submission (id still 0). -/
def reqW : AsyncRequest :=
  { id := 0, rtype := .gitStatus, cwd := [47], timeout_ms := 5000 }

theorem workerW_reachable :
    WReachable 8 (workerW, 0, [1, 2]) := by
  have h : (workerW, 0, ([1, 2] : List Nat)) =
      ((lle_async_worker_submit 8
          (lle_async_worker_submit 8 (worker_start asyncWorkerInit).2 reqW).2.1
          reqW).2.1,
       0,
       (([] : List Nat) ++
          (match (lle_async_worker_submit 8 (worker_start asyncWorkerInit).2
              reqW).2.2 with
           | some r => [r.id]
           | none => [])) ++
         (match (lle_async_worker_submit 8
             (lle_async_worker_submit 8 (worker_start asyncWorkerInit).2
               reqW).2.1 reqW).2.2 with
          | some r => [r.id]
          | none => [])) := by decide
  rw [h]
  exact Relation.ReflTransGen.tail
    (Relation.ReflTransGen.tail
      (Relation.ReflTransGen.tail Relation.ReflTransGen.refl
        (WStep.start asyncWorkerInit 0 []))
      (WStep.submit (worker_start asyncWorkerInit).2 0 [] reqW))
    (WStep.submit _ 0 _ reqW)

/-- Witness for C7: the three submit outcomes at concrete states, and the
id-monotonicity at the concrete reachable configuration `workerW`. -/
theorem c7_submit_contract_witness :
    lle_async_worker_submit 8 asyncWorkerInit reqW =
      (.invalid_state, asyncWorkerInit, none) ∧
    lle_async_worker_submit 2 workerW reqW =
      (.resource_exhausted, workerW, none) ∧
    lle_async_worker_submit 8 workerW reqW =
      (.success,
       { workerW with next_request_id := 4,
                      queue := workerW.queue ++ [{ reqW with id := 3 }],
                      queue_size := 3, total_requests := 3 },
       some { reqW with id := 3 }) ∧
    (∀ req r, (lle_async_worker_submit 8 workerW req).2.2 = some r →
      ∀ i ∈ [1, 2], i < r.id) :=
  ⟨c7_submit_contract.1 8 asyncWorkerInit reqW (by decide),
   c7_submit_contract.2.1 2 workerW reqW (by decide) (by decide) (by decide),
   c7_submit_contract.2.2.1 8 workerW reqW (by decide) (by decide) (by decide),
   c7_submit_contract.2.2.2 8 workerW 0 [1, 2] workerW_reachable⟩

/-! ### C8 -/

/-- C8: viewing submit, dequeue and complete (together with start and
shutdown) as the steps of a state machine, every reachable configuration
satisfies `total_completed + pending + in_flight = total_requests`, where
pending is the queue size (which always equals the queue's length). -/
theorem c8_accounting_invariant (maxQueue : Nat) (w : WorkerSt) (f : Nat)
    (ids : List Nat) (h : WReachable maxQueue (w, f, ids)) :
    w.total_completed + w.queue_size + f = w.total_requests ∧
    w.queue_size = w.queue.length := by
  have hinv := wreachable_invariant maxQueue (w, f, ids) h
  exact ⟨hinv.2.1, hinv.1⟩

/-- Witness for C8 at the concrete reachable configuration `workerW`
(two submitted requests, both still queued, none in flight). -/
theorem c8_accounting_invariant_witness :
    workerW.total_completed + workerW.queue_size + 0 = workerW.total_requests ∧
    workerW.queue_size = workerW.queue.length :=
  c8_accounting_invariant 8 workerW 0 [1, 2] workerW_reachable

/-! ### Color model (spec-modelled) and powerline renderer -/

/-- Modelled from the spec: the color-model variant tag (the color model's
source file is not under src/).  Spec section 3: tagged union `{none}`,
`{basic, index 0..7}`, `{256, index 0..255}`, `{true, r,g,b}`. -/
inductive ColorMode where
  | none
  | basic
  | c256
  | truecolor
deriving DecidableEq, Repr

/-- Modelled from the spec: `lle_color_t`, the color value with its
optional bold flag (spec section 3). -/
structure LleColor where
  mode : ColorMode
  index : Nat
  r : Nat
  g : Nat
  b : Nat
  bold : Bool
deriving DecidableEq, Repr

/-- Modelled from the spec: `lle_color_rgb` builds a truecolor value
(powerline_renderer.c uses it for the default palette). -/
def lle_color_rgb (r g b : Nat) : LleColor :=
  { mode := .truecolor, index := 0, r := r, g := g, b := b, bold := false }

/-- Modelled from the spec: `lle_color_to_ansi`, the ANSI emission of a
color (color model source not under src/).  Spec section 3: a `none`
color emits no bytes; section 4.2 formats: basic `ESC[(30|40)+idx m`,
256 `ESC[38;5;N m` (48 for background), truecolor `ESC[38;2;r;g;b m`;
bold colors are prefixed with `ESC[1m` (the `%B` sequence of 4.2).
Only two facts about this function reach the claim: a `none` color emits
nothing and every emitted byte is ASCII. -/
def lle_color_to_ansi (c : LleColor) (fg : Bool) : List Nat :=
  let boldPfx : List Nat := if c.bold then [27, 91, 49, 109] else []
  match c.mode with
  | .none => []
  | .basic => boldPfx ++ sgr (decBytes ((if fg then 30 else 40) + c.index))
  | .c256 =>
      boldPfx ++ sgr (decBytes (if fg then 38 else 48) ++ [59, 53, 59] ++
        decBytes c.index)
  | .truecolor =>
      boldPfx ++ sgr (decBytes (if fg then 38 else 48) ++ [59, 50, 59] ++
        decBytes c.r ++ [59] ++ decBytes c.g ++ [59] ++ decBytes c.b)

/-- `powerline_segment_t` (powerline_renderer.c 24-29): ANSI-stripped
content with resolved colors. -/
structure PowerlineSegment where
  content : List Nat
  fg : LleColor
  bg : LleColor
deriving DecidableEq, Repr

/-- `append_ctx_t` (powerline_renderer.c 126-130). -/
structure AppendCtx where
  size : Nat
  out : List Nat
deriving DecidableEq, Repr

/-- Model of `buf_append` (powerline_renderer.c 132-138): the whole chunk
is dropped when it does not fit (`pos + len >= size`). -/
def pl_buf_append (a : AppendCtx) (chunk : List Nat) : AppendCtx :=
  if a.out.length + chunk.length ≥ a.size then a
  else { a with out := a.out ++ chunk }

/-- Model of `buf_append_color_fg` / `buf_append_color_bg`
(powerline_renderer.c 144-158): append the color's ANSI bytes when there
are any. -/
def pl_buf_append_color (a : AppendCtx) (c : LleColor) (fg : Bool) : AppendCtx :=
  if (lle_color_to_ansi c fg).length > 0 then
    pl_buf_append a (lle_color_to_ansi c fg)
  else a

/-- The default left separator U+E0B0 (powerline_renderer.c line 372). -/
def plGlyph : List Nat := [238, 130, 176]

/-- The `ESC[0m` reset of `buf_append_reset` (powerline_renderer.c 160). -/
def plReset : List Nat := [27, 91, 48, 109]

/-- Model of `render_left_to_right` (powerline_renderer.c 271-299): per
segment `bg fg ␣content␣`, then between segments a separator colored
`fg := this.bg, bg := next.bg`, and after the last segment reset,
`fg := this.bg`, separator, reset. -/
def render_left_to_right (separator : List Nat) :
    List PowerlineSegment → AppendCtx → AppendCtx
  | [], a => a
  | [seg], a =>
      let a1 := pl_buf_append_color a seg.bg false
      let a2 := pl_buf_append_color a1 seg.fg true
      let a3 := pl_buf_append a2 [32]
      let a4 := pl_buf_append a3 seg.content
      let a5 := pl_buf_append a4 [32]
      let a6 := pl_buf_append a5 plReset
      let a7 := pl_buf_append_color a6 seg.bg true
      let a8 := pl_buf_append a7 (cstr separator)
      pl_buf_append a8 plReset
  | seg :: next :: rest, a =>
      let a1 := pl_buf_append_color a seg.bg false
      let a2 := pl_buf_append_color a1 seg.fg true
      let a3 := pl_buf_append a2 [32]
      let a4 := pl_buf_append a3 seg.content
      let a5 := pl_buf_append a4 [32]
      let a6 := pl_buf_append_color a5 seg.bg true
      let a7 := pl_buf_append_color a6 next.bg false
      let a8 := pl_buf_append a7 (cstr separator)
      render_left_to_right separator (next :: rest) a8

/-- The chunks `render_left_to_right` appends, in order. -/
def render_ltr_chunks (separator : List Nat) :
    List PowerlineSegment → List (List Nat)
  | [] => []
  | [seg] =>
      [lle_color_to_ansi seg.bg false, lle_color_to_ansi seg.fg true, [32],
       seg.content, [32], plReset, lle_color_to_ansi seg.bg true,
       cstr separator, plReset]
  | seg :: next :: rest =>
      [lle_color_to_ansi seg.bg false, lle_color_to_ansi seg.fg true, [32],
       seg.content, [32], lle_color_to_ansi seg.bg true,
       lle_color_to_ansi next.bg false, cstr separator] ++
        render_ltr_chunks separator (next :: rest)

theorem pl_buf_append_color_eq (a : AppendCtx) (c : LleColor) (fg : Bool) :
    pl_buf_append_color a c fg = pl_buf_append a (lle_color_to_ansi c fg) := by
  unfold pl_buf_append_color
  by_cases h : (lle_color_to_ansi c fg).length > 0
  · rw [if_pos h]
  · rw [if_neg h]
    have hnil : lle_color_to_ansi c fg = [] := by
      cases hx : lle_color_to_ansi c fg with
      | nil => rfl
      | cons x xs => rw [hx] at h; simp at h
    rw [hnil]
    unfold pl_buf_append
    split
    · rfl
    · cases a; simp

theorem render_ltr_eq_foldl (separator : List Nat) :
    ∀ (segs : List PowerlineSegment) (a : AppendCtx),
      render_left_to_right separator segs a =
        (render_ltr_chunks separator segs).foldl pl_buf_append a := by
  intro segs
  induction segs with
  | nil => intro a; rfl
  | cons seg rest ih =>
      cases rest with
      | nil =>
          intro a
          simp only [render_left_to_right, render_ltr_chunks, List.foldl,
            pl_buf_append_color_eq]
      | cons next rest2 =>
          intro a
          simp only [render_left_to_right, render_ltr_chunks, List.foldl,
            pl_buf_append_color_eq, List.foldl_append, List.cons_append,
            List.nil_append]
          rw [ih]
          simp [List.foldl]

theorem pl_foldl_ok :
    ∀ (chs : List (List Nat)) (a : AppendCtx),
      a.out.length + chs.flatten.length < a.size →
      chs.foldl pl_buf_append a = { a with out := a.out ++ chs.flatten } := by
  intro chs
  induction chs with
  | nil => intro a h; cases a; simp
  | cons ch t ih =>
      intro a h
      rw [List.foldl,
        show pl_buf_append a ch = { a with out := a.out ++ ch } by
          unfold pl_buf_append
          rw [if_neg (by simp at h; omega)],
        ih _ (by simp at h ⊢; omega)]
      simp

/-! ### Occurrence counting -/

/-- Number of positions of `l` at which `pat` occurs. -/
def countOcc (pat : List Nat) : List Nat → Nat
  | [] => 0
  | c :: rest => (if isHeadOf pat (c :: rest) then 1 else 0) + countOcc pat rest

/-- Every byte is at least 128 (true of the separator glyph). -/
def allHigh (l : List Nat) : Prop := ∀ b ∈ l, 128 ≤ b

/-- Every byte is ASCII. -/
def allLow (l : List Nat) : Prop := ∀ b ∈ l, b < 128

/-- The first byte, if any, is ASCII. -/
def lowHead (l : List Nat) : Prop := ∀ h, l.head? = some h → h < 128

theorem lowHead_append {x y : List Nat} (hx : allLow x) (hy : lowHead y) :
    lowHead (x ++ y) := by
  cases x with
  | nil => simpa using hy
  | cons c t =>
      intro h hh
      simp at hh
      exact hh ▸ hx c (by simp)

theorem plGlyph_high : allHigh plGlyph := by
  intro b hb
  simp [plGlyph] at hb
  omega

theorem isHeadOf_append_low :
    ∀ pat : List Nat, allHigh pat → pat ≠ [] →
      ∀ y : List Nat, lowHead y →
        ∀ s : List Nat, isHeadOf pat (s ++ y) = isHeadOf pat s := by
  intro pat
  induction pat with
  | nil => intro _ hne; simp at hne
  | cons p pt ih =>
      intro hpat _ y hy s
      cases s with
      | nil =>
          simp only [List.nil_append]
          cases y with
          | nil => rfl
          | cons h yt =>
              have hp : 128 ≤ p := hpat p (by simp)
              have hh : h < 128 := hy h rfl
              have hpc : p ≠ h := by omega
              simp [isHeadOf, hpc]
      | cons c st =>
          simp only [List.cons_append, isHeadOf, List.append_eq]
          by_cases hpt : pt = []
          · subst hpt
            simp [isHeadOf]
          · rw [ih (fun b hb => hpat b (by simp [hb])) hpt y hy st]

theorem countOcc_append_low {pat : List Nat} (hpat : allHigh pat)
    (hne : pat ≠ []) (y : List Nat) (hy : lowHead y) :
    ∀ s : List Nat, countOcc pat (s ++ y) = countOcc pat s + countOcc pat y := by
  intro s
  induction s with
  | nil => simp [countOcc]
  | cons c st ih =>
      have hh := isHeadOf_append_low pat hpat hne y hy (c :: st)
      rw [List.cons_append] at hh
      simp only [List.cons_append, List.append_eq, countOcc, hh, ih]
      omega

theorem countOcc_cons_low {pat : List Nat} (hpat : allHigh pat)
    (hne : pat ≠ []) {c : Nat} (hc : c < 128) (z : List Nat) :
    countOcc pat (c :: z) = countOcc pat z := by
  cases pat with
  | nil => simp at hne
  | cons p pt =>
      have hp : 128 ≤ p := hpat p (by simp)
      have hpc : p ≠ c := by omega
      simp [countOcc, isHeadOf, hpc]

theorem countOcc_append_allLow {pat : List Nat} (hpat : allHigh pat)
    (hne : pat ≠ []) :
    ∀ x : List Nat, allLow x →
      ∀ y : List Nat, countOcc pat (x ++ y) = countOcc pat y := by
  intro x
  induction x with
  | nil => intro _ y; rfl
  | cons c t ih =>
      intro hx y
      rw [List.cons_append, countOcc_cons_low hpat hne (hx c (by simp)),
        ih (fun b hb => hx b (by simp [hb])) y]

theorem countOcc_append_space {pat : List Nat} (hpat : allHigh pat)
    (hne : pat ≠ []) (s z : List Nat) :
    countOcc pat (s ++ 32 :: z) = countOcc pat s + countOcc pat (32 :: z) :=
  countOcc_append_low hpat hne (32 :: z)
    (fun h hh => by simp at hh; omega) s

theorem countOcc_glyph_block (z : List Nat) (hz : lowHead z) :
    countOcc plGlyph (plGlyph ++ z) = 1 + countOcc plGlyph z := by
  rw [countOcc_append_low plGlyph_high (by simp [plGlyph]) z hz plGlyph,
    show countOcc plGlyph plGlyph = 1 from by decide]

theorem decDigitsAux_low : ∀ (fuel n : Nat) (b : Nat),
    b ∈ decDigitsAux fuel n → b < 128 := by
  intro fuel
  induction fuel with
  | zero => intro n b hb; simp [decDigitsAux] at hb
  | succ f ih =>
      intro n b hb
      unfold decDigitsAux at hb
      by_cases h : n = 0
      · simp [h] at hb
      · rw [if_neg h] at hb
        simp at hb
        rcases hb with hb | hb
        · omega
        · exact ih _ b hb

theorem decBytes_low (n : Nat) : allLow (decBytes n) := by
  intro b hb
  unfold decBytes at hb
  by_cases h : n = 0
  · simp [h] at hb
    omega
  · rw [if_neg h] at hb
    rw [List.mem_reverse] at hb
    exact decDigitsAux_low n n b hb

theorem sgr_low {body : List Nat} (h : allLow body) : allLow (sgr body) := by
  intro b hb
  unfold sgr at hb
  simp at hb
  rcases hb with hb | hb | hb | hb
  · omega
  · omega
  · exact h b hb
  · omega

theorem allLow_append {x y : List Nat} (hx : allLow x) (hy : allLow y) :
    allLow (x ++ y) := by
  intro b hb
  rcases List.mem_append.mp hb with hb | hb
  · exact hx b hb
  · exact hy b hb

theorem color_ansi_low (c : LleColor) (fg : Bool) :
    allLow (lle_color_to_ansi c fg) := by
  have hbold : allLow (if c.bold then [27, 91, 49, 109] else ([] : List Nat)) := by
    split
    · intro b hb; simp at hb; omega
    · intro b hb; simp at hb
  have hsep : allLow ([59, 53, 59] : List Nat) := by intro b hb; simp at hb; omega
  have hsep2 : allLow ([59, 50, 59] : List Nat) := by intro b hb; simp at hb; omega
  have hsemi : allLow ([59] : List Nat) := by intro b hb; simp at hb; omega
  unfold lle_color_to_ansi
  cases c.mode with
  | none => intro b hb; simp at hb
  | basic => exact allLow_append hbold (sgr_low (decBytes_low _))
  | c256 =>
      exact allLow_append hbold (sgr_low (allLow_append
        (allLow_append (decBytes_low _) hsep) (decBytes_low _)))
  | truecolor =>
      exact allLow_append hbold (sgr_low (allLow_append (allLow_append
        (allLow_append (allLow_append (allLow_append (allLow_append
          (decBytes_low _) hsep2) (decBytes_low _)) hsemi) (decBytes_low _))
        hsemi) (decBytes_low _)))

theorem plReset_low : allLow plReset := by
  intro b hb
  simp [plReset] at hb
  omega

theorem render_chunks_lowHead (separator : List Nat) :
    ∀ segs : List PowerlineSegment, segs ≠ [] →
      lowHead (render_ltr_chunks separator segs).flatten := by
  intro segs hne
  cases segs with
  | nil => exact absurd rfl hne
  | cons seg rest =>
      cases rest with
      | nil =>
          simp only [render_ltr_chunks, List.flatten_cons, List.flatten_nil,
            List.append_nil, List.append_assoc]
          exact lowHead_append (color_ansi_low seg.bg false)
            (lowHead_append (color_ansi_low seg.fg true)
              (fun h hh => by simp at hh; omega))
      | cons next rest2 =>
          simp only [render_ltr_chunks, List.cons_append, List.flatten_cons,
            List.append_assoc]
          exact lowHead_append (color_ansi_low seg.bg false)
            (lowHead_append (color_ansi_low seg.fg true)
              (fun h hh => by simp at hh; omega))


theorem countOcc_render_chunks :
    ∀ segs : List PowerlineSegment,
      (∀ s ∈ segs, countOcc plGlyph s.content = 0) →
      countOcc plGlyph (render_ltr_chunks plGlyph segs).flatten =
        segs.length := by
  have hhigh := plGlyph_high
  have hne : plGlyph ≠ [] := by simp [plGlyph]
  intro segs
  induction segs with
  | nil => intro _; rfl
  | cons seg rest ih =>
      intro hconts
      have hcontent := hconts seg (by simp)
      cases rest with
      | nil =>
          simp only [render_ltr_chunks, List.flatten_cons, List.flatten_nil,
            List.append_nil, List.append_assoc, List.cons_append,
            List.nil_append, show cstr plGlyph = plGlyph from rfl, plReset]
          rw [countOcc_append_allLow hhigh hne _ (color_ansi_low seg.bg false),
            countOcc_append_allLow hhigh hne _ (color_ansi_low seg.fg true),
            countOcc_cons_low hhigh hne (by omega),
            countOcc_append_space hhigh hne seg.content, hcontent,
            countOcc_cons_low hhigh hne (by omega),
            countOcc_cons_low hhigh hne (by omega),
            countOcc_cons_low hhigh hne (by omega),
            countOcc_cons_low hhigh hne (by omega),
            countOcc_cons_low hhigh hne (by omega),
            countOcc_append_allLow hhigh hne _ (color_ansi_low seg.bg true),
            countOcc_glyph_block _
              (fun h hh => by simp at hh; omega)]
          rw [show countOcc plGlyph [27, 91, 48, 109] = 0 from by decide]
          simp
      | cons next rest2 =>
          simp only [render_ltr_chunks, List.flatten_cons, List.flatten_append,
            List.append_assoc, List.cons_append, List.nil_append,
            show cstr plGlyph = plGlyph from rfl]
          rw [countOcc_append_allLow hhigh hne _ (color_ansi_low seg.bg false),
            countOcc_append_allLow hhigh hne _ (color_ansi_low seg.fg true),
            countOcc_cons_low hhigh hne (by omega),
            countOcc_append_space hhigh hne seg.content, hcontent,
            countOcc_cons_low hhigh hne (by omega),
            countOcc_append_allLow hhigh hne _ (color_ansi_low seg.bg true),
            countOcc_append_allLow hhigh hne _ (color_ansi_low next.bg false),
            countOcc_glyph_block _
              (render_chunks_lowHead plGlyph (next :: rest2) (by simp)),
            ih (fun s hs => hconts s (by simp [hs]))]
          simp only [List.length_cons]
          omega

/-! ### C9 -/

/-- C9: in a left-to-right powerline render whose output buffer is large
enough that nothing is truncated and whose visible segments' ANSI-stripped
contents do not contain the default separator glyph U+E0B0, the number of
occurrences of the glyph in the output equals the number of visible
segments: each segment contributes exactly one separator, either the
color-transition separator before the next segment or the single trailing
separator after the last one.  (The color model's ANSI emission is
spec-modelled; only its ASCII-ness matters here.) -/
theorem c9_powerline_separator_count (segs : List PowerlineSegment)
    (size : Nat)
    (hglyph : ∀ s ∈ segs, countOcc plGlyph s.content = 0)
    (hfit : (render_ltr_chunks plGlyph segs).flatten.length < size) :
    (render_left_to_right plGlyph segs { size := size, out := [] }).out =
      (render_ltr_chunks plGlyph segs).flatten ∧
    countOcc plGlyph
      (render_left_to_right plGlyph segs { size := size, out := [] }).out =
      segs.length := by
  have hout : (render_left_to_right plGlyph segs { size := size, out := [] }).out =
      (render_ltr_chunks plGlyph segs).flatten := by
    rw [render_ltr_eq_foldl, pl_foldl_ok _ _ (by simpa using hfit)]
    simp
  exact ⟨hout, by rw [hout, countOcc_render_chunks segs hglyph]⟩

/-- Two concrete visible segments for the C9 witness. -/
def segsW : List PowerlineSegment :=
  [{ content := [97, 98], fg := { lle_color_rgb 255 255 255 with bold := true },
     bg := lle_color_rgb 0 95 175 },
   { content := [99], fg := { lle_color_rgb 255 255 255 with bold := true },
     bg := lle_color_rgb 135 95 175 }]

set_option maxRecDepth 8000 in
/-- Witness for C9: rendering two segments into a 200-byte buffer yields
exactly two separator glyphs. -/
theorem c9_powerline_separator_count_witness :
    (render_left_to_right plGlyph segsW { size := 200, out := [] }).out =
      (render_ltr_chunks plGlyph segsW).flatten ∧
    countOcc plGlyph
      (render_left_to_right plGlyph segsW { size := 200, out := [] }).out =
      segsW.length :=
  c9_powerline_separator_count segsW 200 (by decide) (by decide)

end Lush
